import Mathlib

/-!
Verification of the SpendWise transaction-extraction pipeline.

Shallow embedding of the pipeline modules under
`src/transaction-extractor/` (period analyzer, income detector,
categorization engine and validator, extraction engine, bank detector),
with theorems settling the specification claims about them.

Conventions of the embedding:
* transaction dates are modelled as `Nat` values ordered as the parsed
  `datetime`s are (the sentinel `datetime.min` used for unparsable dates
  is `0`);
* monetary amounts and confidences are modelled as `ℚ` (the reference
  implementation uses Python floats; all arithmetic appearing in the
  claims is exact on the inputs considered);
* Python's stable `sorted` is modelled by `List.insertionSort`, which is
  stable;
* Python dict fields that may be absent are modelled as `Option`;
  `dict.get(k, d)` is `Option.getD`;
* calls to the external inference service are modelled by an oracle
  function returning `Except Unit` (an exception or a response).
-/

namespace SpendWise

/-! ## Period analyzer (`ai/period_analyzer.py`) -/

/-- A transaction as read by `PeriodAnalyzer.group_into_periods`:
`date` (already parsed, `0` = `datetime.min` sentinel), `amount`,
`transaction_type` (`"debit"`/`"credit"`), optional `balance_after`. -/
structure PTxn where
  date : Nat
  amount : ℚ
  transaction_type : String
  balance_after : Option ℚ
deriving DecidableEq, Repr

/-- Python's stable `sorted(txns, key=lambda x: parse_date(x['date']))`. -/
def sortByDate (l : List PTxn) : List PTxn :=
  l.insertionSort (fun a b => a.date ≤ b.date)

/-- A period dictionary produced by `group_into_periods`.  Fields that
only some branches write are `Option`s (absent key = `none`). -/
structure Period where
  period_id : String
  start_date : Option Nat
  end_date : Option Nat
  income_amount : ℚ
  income_transaction : Option PTxn
  transactions : List PTxn
  total_expenses : ℚ
  total_credits : Option ℚ
  remaining_balance : Option ℚ
  starting_balance : Option ℚ
  ending_balance : Option ℚ
  other_credits : Option ℚ
  remaining_from_income : Option ℚ
deriving DecidableEq, Repr

/-- `start_date.isoformat() if start_date and start_date != datetime.min
else None`: the sentinel date is reported as `None`. -/
def dateField (d : Option Nat) : Option Nat :=
  match d with
  | some v => if v ≠ 0 then some v else none
  | none => none

/-- Sum of `abs(amount)` over debit transactions. -/
def sumExpenses (l : List PTxn) : ℚ :=
  ((l.filter (fun t => t.transaction_type == "debit")).map (fun t => |t.amount|)).sum

/-- Sum of (signed) `amount` over credit transactions. -/
def sumCredits (l : List PTxn) : ℚ :=
  ((l.filter (fun t => t.transaction_type == "credit")).map (fun t => t.amount)).sum

/-- The single period built when no income transaction was detected. -/
def noIncomePeriod (sorted_transactions : List PTxn) : Period :=
  { period_id := "no-income"
    start_date := dateField ((sorted_transactions.head?).map (·.date))
    end_date := dateField ((sorted_transactions.getLast?).map (·.date))
    income_amount := 0
    income_transaction := none
    transactions := sorted_transactions
    total_expenses := sumExpenses sorted_transactions
    total_credits := some (sumCredits sorted_transactions)
    remaining_balance := some 0
    starting_balance := none
    ending_balance := none
    other_credits := none
    remaining_from_income := none }

/-- The `"pre-income"` period over the transactions dated strictly
before the first income event. -/
def preIncomePeriod (pre_income_txns : List PTxn) : Period :=
  { period_id := "pre-income"
    start_date := dateField ((pre_income_txns.head?).map (·.date))
    end_date := dateField ((pre_income_txns.getLast?).map (·.date))
    income_amount := 0
    income_transaction := none
    transactions := pre_income_txns
    total_expenses := sumExpenses pre_income_txns
    total_credits := some (sumCredits pre_income_txns)
    remaining_balance := some 0
    starting_balance := none
    ending_balance := none
    other_credits := none
    remaining_from_income := none }

/-- Body of one iteration of the income loop of `group_into_periods`:
builds `period-(i+1)` for income transaction `inc`, where `nextIncome`
is the following income event (if any) and `prevEnd` is the previous
main period's `ending_balance` (`none` when `i = 0`). -/
def makePeriod (sorted_transactions : List PTxn) (inc : PTxn)
    (nextIncome : Option PTxn) (i : Nat) (prevEnd : Option ℚ) : Period :=
  let income_date := inc.date
  let income_amount := |inc.amount|
  let starting_balance : ℚ :=
    match inc.balance_after with
    | some b => b
    | none =>
      match prevEnd with
      | some e => e + income_amount
      | none => income_amount
  let period_end : Nat :=
    match nextIncome with
    | some nxt => nxt.date
    | none =>
      match sorted_transactions.getLast? with
      | some lt => lt.date
      | none => income_date
  let period_txns := sorted_transactions.filter
    (fun t => income_date < t.date ∧ t.date < period_end)
  let total_expenses := sumExpenses period_txns
  let other_credits := sumCredits period_txns
  let ending_balance := starting_balance - total_expenses + other_credits
  { period_id := "period-" ++ toString (i + 1)
    start_date := dateField (some income_date)
    end_date := dateField (some period_end)
    income_amount := income_amount
    income_transaction := some inc
    transactions := sortByDate (inc :: period_txns)
    total_expenses := total_expenses
    total_credits := none
    remaining_balance := none
    starting_balance := some starting_balance
    ending_balance := some ending_balance
    other_credits := some other_credits
    remaining_from_income := some (income_amount - total_expenses) }

/-- The `for i, income_txn in enumerate(sorted_income)` loop of
`group_into_periods`, threading the previous period's ending balance. -/
def mainLoop (sorted_transactions : List PTxn) :
    List PTxn → Nat → Option ℚ → List Period
  | [], _, _ => []
  | inc :: restInc, i, prevEnd =>
    let p := makePeriod sorted_transactions inc restInc.head? i prevEnd
    p :: mainLoop sorted_transactions restInc (i + 1) p.ending_balance

/-- The income-anchored periods of `group_into_periods`. -/
def mainPeriods (transactions income_transactions : List PTxn) : List Period :=
  mainLoop (sortByDate transactions) (sortByDate income_transactions) 0 none

/-- The `"pre-income"` period list (empty or a singleton) of
`group_into_periods`. -/
def prePeriods (transactions income_transactions : List PTxn) : List Period :=
  match (sortByDate income_transactions).head? with
  | none => []
  | some first =>
    let pre := (sortByDate transactions).filter (fun t => t.date < first.date)
    if pre.isEmpty then [] else [preIncomePeriod pre]

/-- `PeriodAnalyzer.group_into_periods` (period_analyzer.py lines
19-171): no income gives one catch-all period; otherwise an optional
pre-income period followed by one period per income event. -/
def group_into_periods (transactions income_transactions : List PTxn) :
    List Period :=
  if (sortByDate income_transactions).isEmpty then
    [noIncomePeriod (sortByDate transactions)]
  else
    prePeriods transactions income_transactions ++
      mainPeriods transactions income_transactions

/-- The spec's §8 example: a credit of 15000 on day 3, a debit of 300
on day 10, a debit of 5000 on day 20. -/
def exTxn1 : PTxn :=
  { date := 3, amount := 15000, transaction_type := "credit", balance_after := none }

def exTxn2 : PTxn :=
  { date := 10, amount := -300, transaction_type := "debit", balance_after := none }

def exTxn3 : PTxn :=
  { date := 20, amount := -5000, transaction_type := "debit", balance_after := none }

def exTxns : List PTxn := [exTxn1, exTxn2, exTxn3]

def exIncomes : List PTxn := [exTxn1]

/-! ## Categorization validator (`ai/categorization_validator.py`) -/

/-- A categorized transaction as read by `validate_periods`. -/
structure VTxn where
  transaction_id : Option String
  transaction_type : String
  amount : ℚ
  category : Option String
deriving DecidableEq, Repr

/-- A period dictionary as read by `validate_periods`. -/
structure VPeriod where
  period_id : String
  income_amount : ℚ
  transactions : List VTxn
  total_expenses : ℚ
deriving DecidableEq, Repr

/-- An entry of `validation_results['suspicious_transactions']`. -/
structure Suspicious where
  transaction_id : Option String
  period_id : String
  amount : ℚ
  income_amount : ℚ
  ratio : ℚ
  current_category : String
deriving DecidableEq, Repr

/-- An entry of `validation_results['warnings']` (the constructor fixes
the `type`/`severity` fields of the Python dict). -/
inductive VWarning where
  | spending_exceeds_income (period_id : String)
      (income_amount total_expenses excess : ℚ)
  | category_exceeds_threshold (period_id : String) (category : String)
      (category_total income_amount ratio : ℚ)
deriving DecidableEq, Repr

/-- The `validation_results` dictionary. -/
structure ValidationResults where
  warnings : List VWarning
  suspicious_transactions : List Suspicious
  period_issues : List String
deriving DecidableEq, Repr

/-- The category-totals dictionary of Check 3, as an insertion-ordered
association list (Python dict accumulation). -/
def updateTotal (k : String) (a : ℚ) :
    List (String × ℚ) → List (String × ℚ)
  | [] => [(k, a)]
  | (k', v) :: rest =>
    if k' = k then (k', v + a) :: rest else (k', v) :: updateTotal k a rest

/-- `category_totals` accumulated over the period's debit transactions. -/
def categoryTotals (txns : List VTxn) : List (String × ℚ) :=
  txns.foldl
    (fun acc t =>
      if t.transaction_type == "debit" then
        updateTotal (t.category.getD "Other") |t.amount| acc
      else acc)
    []

/-- One iteration of the `for period in periods` loop of
`validate_periods` (checks 1-3), acting on the accumulated results. -/
def validateOnePeriod (max_spending_r single_txn_r category_r : ℚ)
    (res : ValidationResults) (p : VPeriod) : ValidationResults :=
  if p.period_id = "pre-income" ∨ p.income_amount = 0 then res
  else
    let res1 :=
      if p.total_expenses > p.income_amount * max_spending_r then
        { res with
          warnings := res.warnings ++
            [VWarning.spending_exceeds_income p.period_id p.income_amount
              p.total_expenses (p.total_expenses - p.income_amount)]
          period_issues := res.period_issues ++ [p.period_id] }
      else res
    let res2 :=
      { res1 with
        suspicious_transactions := res1.suspicious_transactions ++
          p.transactions.filterMap (fun (t : VTxn) =>
            if t.transaction_type == "debit" ∧
                |t.amount| > p.income_amount * single_txn_r then
              some ({ transaction_id := t.transaction_id
                      period_id := p.period_id
                      amount := |t.amount|
                      income_amount := p.income_amount
                      ratio := |t.amount| / p.income_amount
                      current_category := t.category.getD "Unknown" } :
                     Suspicious)
            else none) }
    { res2 with
      warnings := res2.warnings ++
        (categoryTotals p.transactions).filterMap (fun (ct : String × ℚ) =>
          if ct.2 > p.income_amount * category_r then
            some (VWarning.category_exceeds_threshold p.period_id ct.1 ct.2
              p.income_amount (ct.2 / p.income_amount))
          else none) }

/-- The `for period in periods` loop, threading the period list as
explicit state: each iteration reads its period and hands it back
unchanged (the source performs no write into `period`). -/
def validateLoop (max_spending_r single_txn_r category_r : ℚ)
    (res : ValidationResults) :
    List VPeriod → ValidationResults × List VPeriod
  | [] => (res, [])
  | p :: ps =>
    let res' := validateOnePeriod max_spending_r single_txn_r category_r res p
    let (r, ps') := validateLoop max_spending_r single_txn_r category_r res' ps
    (r, p :: ps')

/-- `CategorizationValidator.validate_periods` (categorization_validator.py
lines 54-148), with the validator's three threshold parameters
(defaults `1.0`, `0.5`, `0.3`).  Returns the validation report together
with the period list as it stands after the call. -/
def validate_periods (max_spending_r single_txn_r category_r : ℚ)
    (periods : List VPeriod) : ValidationResults × List VPeriod :=
  validateLoop max_spending_r single_txn_r category_r
    { warnings := [], suspicious_transactions := [], period_issues := [] }
    periods

/-! ## Categorization engine (`ai/categorization_engine.py`) -/

/-- A transaction as read by `categorize_transactions` (the remaining
dict fields, irrelevant to batching, are summarized by `description`
and `amount`; equality of these records models Python dict equality,
used by `batch.index(txn)`). -/
structure Txn0 where
  transaction_id : Option String
  description : String
  amount : ℚ
deriving DecidableEq, Repr

/-- One entry of the JSON array returned by the categorization
inference call; all fields are read with `.get` and may be absent. -/
structure CatInfo where
  transaction_id : Option String
  category : Option String
  subcategory : Option String
  confidence : Option ℚ
  tags : Option (List String)
deriving DecidableEq, Repr

/-- A transaction after `categorize_transactions` annotated it with the
four category fields. -/
structure CatTxn where
  txn : Txn0
  category : String
  subcategory : String
  category_confidence : ℚ
  tags : List String
deriving DecidableEq, Repr

/-- `[l[i:i+size] for i in range(0, len(l), size)]`. -/
def chunkList {α : Type} (size : Nat) (l : List α) : List (List α) :=
  if l.isEmpty then []
  else if size = 0 then []
  else l.take size :: chunkList size (l.drop size)
termination_by l.length
decreasing_by
  simp only [List.length_drop]
  rcases l with _ | ⟨a, l⟩
  · simp at *
  · simp only [List.length_cons]
    omega

/-- `cat_map = {cat.get('transaction_id'): cat for cat in cats}` keeps
the last entry per key; lookup of a (truthy) id. -/
def catMapFind (cats : List CatInfo) (id : String) : Option CatInfo :=
  (cats.filter (fun c => c.transaction_id = some id)).getLast?

/-- Writing one categorization entry's fields onto a transaction, with
the source's `.get` defaults. -/
def applyCat (txn : Txn0) (cat : CatInfo) : CatTxn :=
  { txn := txn
    category := cat.category.getD "Other"
    subcategory := cat.subcategory.getD "Uncategorized"
    category_confidence := cat.confidence.getD (1/2)
    tags := cat.tags.getD [] }

/-- The final fallback annotation (`'Other'`, `'Uncategorized'`,
confidence `0`, no tags). -/
def fallbackTxn (txn : Txn0) : CatTxn :=
  { txn := txn
    category := "Other"
    subcategory := "Uncategorized"
    category_confidence := 0
    tags := [] }

/-- Index-based backup matching: `batch.index(txn)` then
`categorizations[idx]` when in range, else the final fallback. -/
def idxFallback (batch : List Txn0) (cats : List CatInfo) (txn : Txn0) : CatTxn :=
  match cats[batch.indexOf txn]? with
  | some cat => applyCat txn cat
  | none => fallbackTxn txn

/-- Merging one transaction of a successfully categorized batch: id
lookup in `cat_map` when the id is truthy and present, else
index-based matching, else the final fallback. -/
def mergeTxn (batch : List Txn0) (cats : List CatInfo) (txn : Txn0) : CatTxn :=
  let lookup : Option CatInfo :=
    match txn.transaction_id with
    | some id => if id ≠ "" then catMapFind cats id else none
    | none => none
  match lookup with
  | some cat => applyCat txn cat
  | none => idxFallback batch cats txn

/-- Processing of one batch by `categorize_transactions`: a raised
inference call gives every transaction of the batch the fallback
annotation; a successful call merges its result into the batch. -/
def processBatch (oracle : List Txn0 → Except Unit (List CatInfo))
    (batch : List Txn0) : List CatTxn :=
  match oracle batch with
  | Except.error _ => batch.map fallbackTxn
  | Except.ok cats => batch.map (mergeTxn batch cats)

/-- `TransactionCategoryEngine.categorize_transactions`
(categorization_engine.py lines 281-398): split into batches, process
each batch independently, concatenate in batch order.  The inference
call (prompt construction + `categorize_with_groq`) is the oracle. -/
def categorize_transactions (oracle : List Txn0 → Except Unit (List CatInfo))
    (batch_size : Nat) (transactions : List Txn0) : List CatTxn :=
  (chunkList batch_size transactions).flatMap (processBatch oracle)

/-! ## Extraction engine batch mode (`ai/extraction_engine.py`) -/

/-- An input row record (opaque to the merge logic). -/
structure XRecord where
  payload : String
deriving DecidableEq, Repr

/-- An extracted transaction (opaque to the merge logic). -/
structure ETxn where
  payload : String
deriving DecidableEq, Repr

/-- The dictionary returned by `extract_transactions` for one chunk;
every field is read with `.get` and may be absent. -/
structure ExtractResult where
  bank_name : Option String
  account_number : Option String
  statement_period_start : Option String
  statement_period_end : Option String
  opening_balance : Option ℚ
  closing_balance : Option ℚ
  currency : Option String
  transactions : List ETxn
deriving DecidableEq, Repr

/-- The `combined_result` dictionary of `extract_transactions_batch`. -/
structure CombinedResult where
  bank_name : String
  currency : String
  transactions : List ETxn
  account_number : Option String
  statement_period_start : Option String
  statement_period_end : Option String
  opening_balance : Option ℚ
  closing_balance : Option ℚ
deriving DecidableEq, Repr

/-- One iteration of the chunk loop: a raised chunk extraction leaves
the accumulator untouched (the chunk is skipped); a successful one
appends its transactions and, for the first/last chunk, copies the
metadata fields. -/
def batchStep (oracle : List XRecord → Except Unit ExtractResult)
    (bank_hint : Option String) (total : Nat) (idx : Nat)
    (chunk : List XRecord) (acc : CombinedResult × List ETxn) :
    CombinedResult × List ETxn :=
  match oracle chunk with
  | Except.error _ => acc
  | Except.ok r =>
    let allT := acc.2 ++ r.transactions
    let c := acc.1
    let c :=
      if idx = 1 then
        { c with
          bank_name := r.bank_name.getD (bank_hint.getD "")
          account_number := r.account_number
          statement_period_start := r.statement_period_start
          currency := r.currency.getD "TRY" }
      else c
    let c :=
      if idx = total then
        { c with
          statement_period_end := r.statement_period_end
          closing_balance := r.closing_balance }
      else c
    (c, allT)

/-- The `for chunk_idx, chunk in enumerate(chunks, 1)` loop. -/
def batchFold (oracle : List XRecord → Except Unit ExtractResult)
    (bank_hint : Option String) (total : Nat) :
    List (List XRecord) → Nat → CombinedResult × List ETxn →
    CombinedResult × List ETxn
  | [], _, acc => acc
  | chunk :: rest, idx, acc =>
    batchFold oracle bank_hint total rest (idx + 1)
      (batchStep oracle bank_hint total idx chunk acc)

/-- The initial `combined_result`. -/
def initCombined (bank_hint : Option String) : CombinedResult :=
  { bank_name := bank_hint.getD ""
    currency := "TRY"
    transactions := []
    account_number := none
    statement_period_start := none
    statement_period_end := none
    opening_balance := none
    closing_balance := none }

/-- `AIExtractionEngine.extract_transactions_batch`
(extraction_engine.py lines 212-321): chunk the records, extract each
chunk independently (skipping raised chunks), merge metadata from the
first and last chunk, concatenate all transactions. -/
def extract_transactions_batch (oracle : List XRecord → Except Unit ExtractResult)
    (bank_hint : Option String) (chunk_size : Nat)
    (records : List XRecord) : CombinedResult :=
  let chunks := chunkList chunk_size records
  let r := batchFold oracle bank_hint chunks.length chunks 1
    (initCombined bank_hint, [])
  { r.1 with transactions := r.2 }

/-! ## Bank detector (`detectors/bank_detector.py`) -/

/-- One token of the simple regexes used in `BANK_PATTERNS`: a literal
(matched case-insensitively), `\s+`, or `\s*`.  These three constructs
are the only ones the pattern table uses (`\.` is the literal dot). -/
inductive RTok where
  | lit (s : String)
  | ws1
  | ws0
deriving DecidableEq, Repr

/-- ASCII whitespace (`\s`). -/
def isWsChar (c : Char) : Bool :=
  c = ' ' ∨ c = '\t' ∨ c = '\n' ∨ c = '\r' ∨ c = '\x0b' ∨ c = '\x0c'

/-- Case-insensitive removal of the literal `p` from the front of `cs`
(`re.IGNORECASE` modelled by `Char.toLower` folding). -/
def dropLit : List Char → List Char → Option (List Char)
  | [], cs => some cs
  | _ :: _, [] => none
  | p :: ps, c :: cs =>
    if p.toLower = c.toLower then dropLit ps cs else none

/-- Matching a token list at the start of `cs`.  In the pattern table
every `\s+`/`\s*` is followed by a literal starting with a non-space
character, so greedy whitespace consumption is equivalent to the
backtracking semantics of `re`. -/
def matchToks : List RTok → List Char → Bool
  | [], _ => true
  | RTok.lit s :: rest, cs =>
    match dropLit s.toList cs with
    | some cs' => matchToks rest cs'
    | none => false
  | RTok.ws1 :: rest, cs =>
    match cs with
    | c :: cs' => isWsChar c && matchToks rest (cs'.dropWhile isWsChar)
    | [] => false
  | RTok.ws0 :: rest, cs => matchToks rest (cs.dropWhile isWsChar)

/-- `re.search`: the pattern matches at some position of the text. -/
def searchToks (toks : List RTok) : List Char → Bool
  | [] => matchToks toks []
  | c :: cs => matchToks toks (c :: cs) || searchToks toks cs

/-- `re.search(pattern, text, re.IGNORECASE)` as a Boolean. -/
def re_search (toks : List RTok) (text : String) : Bool :=
  searchToks toks text.toList

/-- `BankDetector.BANK_PATTERNS`, in dict insertion order, each regex
translated token by token. -/
def BANK_PATTERNS : List (String × List (List RTok)) :=
  [("Garanti BBVA",
    [[RTok.lit "Garanti", RTok.ws1, RTok.lit "BBVA"],
     [RTok.lit "Garanti", RTok.ws1, RTok.lit "Bankası"],
     [RTok.lit "GARANTIBBVA"],
     [RTok.lit "T.", RTok.ws0, RTok.lit "Garanti"]]),
   ("İş Bankası",
    [[RTok.lit "İş", RTok.ws1, RTok.lit "Bankası"],
     [RTok.lit "Türkiye", RTok.ws1, RTok.lit "İş", RTok.ws1, RTok.lit "Bankası"],
     [RTok.lit "ISBANK"],
     [RTok.lit "T.", RTok.ws0, RTok.lit "İş", RTok.ws0, RTok.lit "Bankası"]]),
   ("Yapı Kredi",
    [[RTok.lit "Yapı", RTok.ws1, RTok.lit "Kredi"],
     [RTok.lit "Yapı", RTok.ws1, RTok.lit "ve", RTok.ws1, RTok.lit "Kredi",
      RTok.ws1, RTok.lit "Bankası"],
     [RTok.lit "YAPIKREDI"],
     [RTok.lit "YKB"]]),
   ("Akbank",
    [[RTok.lit "Akbank"],
     [RTok.lit "AKBANK"],
     [RTok.lit "T.", RTok.ws0, RTok.lit "Akbank"]]),
   ("Ziraat Bankası",
    [[RTok.lit "Ziraat", RTok.ws1, RTok.lit "Bankası"],
     [RTok.lit "T.", RTok.ws0, RTok.lit "C.", RTok.ws0, RTok.lit "Ziraat",
      RTok.ws1, RTok.lit "Bankası"],
     [RTok.lit "ZIRAATBANK"]]),
   ("Halkbank",
    [[RTok.lit "Halk", RTok.ws1, RTok.lit "Bankası"],
     [RTok.lit "Halkbank"],
     [RTok.lit "T.", RTok.ws0, RTok.lit "C.", RTok.ws0, RTok.lit "Halkbank"]]),
   ("Vakıfbank",
    [[RTok.lit "Vakıfbank"],
     [RTok.lit "Vakıf", RTok.ws1, RTok.lit "Bank"],
     [RTok.lit "T.", RTok.ws0, RTok.lit "Vakıflar", RTok.ws1, RTok.lit "Bankası"]]),
   ("Denizbank",
    [[RTok.lit "Denizbank"],
     [RTok.lit "Deniz", RTok.ws1, RTok.lit "Bank"]]),
   ("QNB Finansbank",
    [[RTok.lit "QNB", RTok.ws1, RTok.lit "Finansbank"],
     [RTok.lit "Finansbank"],
     [RTok.lit "QNB", RTok.ws1, RTok.lit "Finans"]]),
   ("TEB",
    [[RTok.lit "TEB"],
     [RTok.lit "Türk", RTok.ws1, RTok.lit "Ekonomi", RTok.ws1, RTok.lit "Bankası"],
     [RTok.lit "T.", RTok.ws0, RTok.lit "Ekonomi", RTok.ws1, RTok.lit "Bankası"]]),
   ("ING Bank",
    [[RTok.lit "ING", RTok.ws1, RTok.lit "Bank"],
     [RTok.lit "ING"]]),
   ("HSBC",
    [[RTok.lit "HSBC"],
     [RTok.lit "HSBC", RTok.ws1, RTok.lit "Bank"]]),
   ("Kuveyt Türk",
    [[RTok.lit "Kuveyt", RTok.ws1, RTok.lit "Türk"],
     [RTok.lit "KuveytTürk"]]),
   ("Albaraka Türk",
    [[RTok.lit "Albaraka", RTok.ws1, RTok.lit "Türk"],
     [RTok.lit "AlbarakaTürk"]])]

/-- `BankDetector.detect_from_text` (bank_detector.py lines 88-113):
empty text gives `None`; otherwise the first bank (in table order) one
of whose patterns matches, or `None` when no pattern matches. -/
def detect_from_text (text : String) : Option String :=
  if text = "" then none
  else
    BANK_PATTERNS.findSome? (fun bp =>
      if bp.2.any (fun p => re_search p text) then some bp.1 else none)


/-! ## JSON values, serialization and parsing

The inference engines parse responses with Python's `json` module after
markdown-fence stripping and (for extraction) trailing-comma repair.
JSON values are modelled by the mutual `Json`/`JsonList`/`JsonMembers`
types; numbers are integers (`Json.num`); `Json.fnum` represents a
non-integral Python float sitting in a dict (such as the `0.5` default
confidence) — it is never produced by the parser or the serializer. -/

mutual
/-- A JSON value (see the section comment above). -/
inductive Json where
  | null : Json
  | bool (b : Bool) : Json
  | num (n : Int) : Json
  | fnum (q : ℚ) : Json
  | str (s : String) : Json
  | arr (xs : JsonList) : Json
  | obj (kvs : JsonMembers) : Json
inductive JsonList where
  | nil : JsonList
  | cons (hd : Json) (tl : JsonList) : JsonList
inductive JsonMembers where
  | nil : JsonMembers
  | cons (key : String) (val : Json) (tl : JsonMembers) : JsonMembers
end

/-- `json.dumps` escaping of one string character (under the
wellformedness condition below only `"` and `\\` need escaping). -/
def escChar (c : Char) : List Char :=
  if c = '"' then ['\\', '"'] else if c = '\\' then ['\\', '\\'] else [c]

/-- The serialized body of a JSON string. -/
def escapeStr (s : String) : List Char := s.data.flatMap escChar

/-- Decimal digits of a natural number. -/
def natChars (n : Nat) : List Char :=
  if n < 10 then [Char.ofNat (48 + n)]
  else natChars (n / 10) ++ [Char.ofNat (48 + n % 10)]
termination_by n
decreasing_by exact Nat.div_lt_self (by omega) (by omega)

/-- Decimal representation of an integer. -/
def intChars (n : Int) : List Char :=
  if n < 0 then '-' :: natChars n.natAbs else natChars n.natAbs

mutual
/-- The serializer, parameterized by whether a trailing comma is added
to every nonempty array (`tA`) and object (`tO`): `dumpsF false false`
is the clean compact `json.dumps` form, the `true` flags model "the
same text with trailing commas". -/
def dumpsF (tA tO : Bool) : Json → List Char
  | Json.null => "null".data
  | Json.bool true => "true".data
  | Json.bool false => "false".data
  | Json.num n => intChars n
  | Json.fnum _ => []
  | Json.str s => '"' :: (escapeStr s ++ ['"'])
  | Json.arr JsonList.nil => "[]".data
  | Json.arr (JsonList.cons x tl) =>
    '[' :: (dumpsF tA tO x ++ dumpsRestF tA tO tl ++
      (if tA then [','] else []) ++ [']'])
  | Json.obj JsonMembers.nil => "\x7b\x7d".data
  | Json.obj (JsonMembers.cons k v tl) =>
    '\x7b' :: ('"' :: (escapeStr k ++ ['"']) ++ ':' :: dumpsF tA tO v ++
      dumpsMemF tA tO tl ++ (if tO then [','] else []) ++ ['\x7d'])
def dumpsRestF (tA tO : Bool) : JsonList → List Char
  | JsonList.nil => []
  | JsonList.cons x tl => ',' :: (dumpsF tA tO x ++ dumpsRestF tA tO tl)
def dumpsMemF (tA tO : Bool) : JsonMembers → List Char
  | JsonMembers.nil => []
  | JsonMembers.cons k v tl =>
    ',' :: ('"' :: (escapeStr k ++ ['"']) ++ ':' :: dumpsF tA tO v ++
      dumpsMemF tA tO tl)
end

/-- Clean compact serialization (`json.dumps`). -/
def dumps : Json → List Char := dumpsF false false

/-- The same serialization with a trailing comma in every nonempty
array and object. -/
def dumpsT : Json → List Char := dumpsF true true

/-- ASCII printable, not a backtick. -/
def safeChar (c : Char) : Bool := 32 ≤ c.toNat && c.toNat ≤ 126 && c ≠ '`'

/-- Whether `needle` occurs as a contiguous substring of `hay`. -/
def containsSub (needle : List Char) : List Char → Bool
  | [] => needle.isPrefixOf []
  | c :: t => needle.isPrefixOf (c :: t) || containsSub needle t

/-- A string is safe when its characters are printable ASCII without
backticks and it contains neither `,\x7d` nor `,]` as a substring (the
substrings the recovery steps of `extract_with_groq` rewrite). -/
def safeStr (s : String) : Bool :=
  s.data.all safeChar && !containsSub (",\x7d".data) s.data &&
    !containsSub (",]".data) s.data

/-- Whether an object member list already binds a key. -/
def hasKey (k : String) : JsonMembers → Bool
  | JsonMembers.nil => false
  | JsonMembers.cons k' _ tl => k' = k || hasKey k tl

mutual
/-- Wellformed values: no floats, safe strings, distinct object keys. -/
def wfJson : Json → Bool
  | Json.null => true
  | Json.bool _ => true
  | Json.num _ => true
  | Json.fnum _ => false
  | Json.str s => safeStr s
  | Json.arr xs => wfList xs
  | Json.obj kvs => wfMembers kvs
def wfList : JsonList → Bool
  | JsonList.nil => true
  | JsonList.cons x tl => wfJson x && wfList tl
def wfMembers : JsonMembers → Bool
  | JsonMembers.nil => true
  | JsonMembers.cons k v tl =>
    safeStr k && wfJson v && !hasKey k tl && wfMembers tl
end

/-- Whether the trailing-comma serialization differs from the clean
one: exactly when the top value is a nonempty array or object. -/
def hasTC : Json → Bool
  | Json.arr (JsonList.cons _ _) => true
  | Json.obj (JsonMembers.cons _ _ _) => true
  | _ => false

mutual
/-- Fuel sufficient for `parseValue` on the serialization of a value. -/
def needV : Json → Nat
  | Json.null => 1
  | Json.bool _ => 1
  | Json.num _ => 1
  | Json.fnum _ => 1
  | Json.str _ => 1
  | Json.arr JsonList.nil => 1
  | Json.arr (JsonList.cons x tl) => 1 + needL (JsonList.cons x tl)
  | Json.obj JsonMembers.nil => 1
  | Json.obj (JsonMembers.cons k v tl) => 1 + needM (JsonMembers.cons k v tl)
def needL : JsonList → Nat
  | JsonList.nil => 0
  | JsonList.cons x tl => 1 + max (needV x) (needL tl)
def needM : JsonMembers → Nat
  | JsonMembers.nil => 0
  | JsonMembers.cons _ v tl => 1 + max (needV v) (needM tl)
end

/-- Continuations after a serialized value inside a document: nothing,
or a separator/closer. -/
def restOk (rest : List Char) : Prop :=
  rest = [] ∨ rest.head? = some ',' ∨ rest.head? = some ']' ∨
    rest.head? = some '\x7d'

/-- JSON whitespace. -/
def isWsJson (c : Char) : Bool := c = ' ' ∨ c = '\n' ∨ c = '\t' ∨ c = '\r'

def skipWs (cs : List Char) : List Char := cs.dropWhile isWsJson

/-- Decoding of a string escape (`json.loads`; `\\uXXXX` is not needed
for wellformed values and is rejected). -/
def escDecode (c : Char) : Option Char :=
  if c = '"' then some '"'
  else if c = '\\' then some '\\'
  else if c = '/' then some '/'
  else if c = 'n' then some '\n'
  else if c = 't' then some '\t'
  else if c = 'r' then some '\r'
  else if c = 'b' then some '\x08'
  else if c = 'f' then some '\x0c'
  else none

/-- Parse a JSON string body after the opening quote; raw control
characters are rejected as in `json.loads` strict mode. -/
def parseStringBody : List Char → Option (List Char × List Char)
  | [] => none
  | c :: rest =>
    if c = '"' then some ([], rest)
    else if c = '\\' then
      match rest with
      | [] => none
      | e :: rest' =>
        match escDecode e, parseStringBody rest' with
        | some d, some (s, r) => some (d :: s, r)
        | _, _ => none
    else if c.toNat < 32 then none
    else
      match parseStringBody rest with
      | some (s, r) => some (c :: s, r)
      | none => none

def isDigitChar (c : Char) : Bool := '0' ≤ c ∧ c ≤ '9'

/-- Value of a digit string. -/
def digitsVal (ds : List Char) : Nat :=
  ds.foldl (fun a c => a * 10 + (c.toNat - 48)) 0

/-- Parse an integer JSON number. -/
def parseNum : List Char → Option (Int × List Char)
  | [] => none
  | c :: rest =>
    if c = '-' then
      let ds := rest.takeWhile isDigitChar
      if ds.isEmpty then none
      else some (-(digitsVal ds : Int), rest.dropWhile isDigitChar)
    else
      let ds := (c :: rest).takeWhile isDigitChar
      if ds.isEmpty then none
      else some ((digitsVal ds : Int), (c :: rest).dropWhile isDigitChar)

mutual
/-- Recursive-descent JSON parser (`json.loads`), with a fuel argument
bounding the nesting of recursive calls. -/
def parseValue : Nat → List Char → Option (Json × List Char)
  | 0, _ => none
  | n + 1, cs =>
    match skipWs cs with
    | [] => none
    | c :: rest =>
      if c = '"' then
        match parseStringBody rest with
        | some (s, r) => some (Json.str (String.mk s), r)
        | none => none
      else if c = '[' then
        if (skipWs rest).head? = some ']' then
          some (Json.arr JsonList.nil, (skipWs rest).tail)
        else
          match parseElems n (skipWs rest) with
          | some (xs, r) => some (Json.arr xs, r)
          | none => none
      else if c = '\x7b' then
        if (skipWs rest).head? = some '\x7d' then
          some (Json.obj JsonMembers.nil, (skipWs rest).tail)
        else
          match parseMembers n (skipWs rest) with
          | some (kvs, r) => some (Json.obj kvs, r)
          | none => none
      else if c = 't' then
        if rest.take 3 = ['r', 'u', 'e'] then some (Json.bool true, rest.drop 3)
        else none
      else if c = 'f' then
        if rest.take 4 = ['a', 'l', 's', 'e'] then some (Json.bool false, rest.drop 4)
        else none
      else if c = 'n' then
        if rest.take 3 = ['u', 'l', 'l'] then some (Json.null, rest.drop 3)
        else none
      else
        match parseNum (c :: rest) with
        | some (m, r) => some (Json.num m, r)
        | none => none
def parseElems : Nat → List Char → Option (JsonList × List Char)
  | 0, _ => none
  | n + 1, cs =>
    match parseValue n cs with
    | none => none
    | some (v, r) =>
      if (skipWs r).head? = some ',' then
        match parseElems n (skipWs r).tail with
        | some (xs, r3) => some (JsonList.cons v xs, r3)
        | none => none
      else if (skipWs r).head? = some ']' then
        some (JsonList.cons v JsonList.nil, (skipWs r).tail)
      else none
def parseMembers : Nat → List Char → Option (JsonMembers × List Char)
  | 0, _ => none
  | n + 1, cs =>
    match skipWs cs with
    | [] => none
    | c :: rest =>
      if c = '"' then
        match parseStringBody rest with
        | none => none
        | some (k, r) =>
          if (skipWs r).head? = some ':' then
            match parseValue n (skipWs r).tail with
            | none => none
            | some (v, r3) =>
              if (skipWs r3).head? = some ',' then
                match parseMembers n (skipWs r3).tail with
                | some (kvs, r5) => some (JsonMembers.cons (String.mk k) v kvs, r5)
                | none => none
              else if (skipWs r3).head? = some '\x7d' then
                some (JsonMembers.cons (String.mk k) v JsonMembers.nil, (skipWs r3).tail)
              else none
          else none
      else none
end

/-- `json.loads`: parse one value, then require only whitespace to
remain. -/
def json_loads (cs : List Char) : Option Json :=
  match parseValue (cs.length + 1) cs with
  | some (v, rest) => if (skipWs rest).isEmpty then some v else none
  | none => none

/-! ## The response-parse recovery chain (`extract_with_groq` lines
138-167 and `re_categorize_suspicious` lines 245-262) -/

/-- Split at the first occurrence of `sep` (returns the parts before
and after it). -/
def splitFirst (sep : List Char) : List Char → Option (List Char × List Char)
  | [] => if sep.isPrefixOf ([] : List Char) then some ([], []) else none
  | c :: t =>
    if sep.isPrefixOf (c :: t) then some ([], (c :: t).drop sep.length)
    else
      match splitFirst sep t with
      | some (a, b) => some (c :: a, b)
      | none => none

/-- Python `s.split(sep)[0]`. -/
def beforeFirst (sep l : List Char) : List Char :=
  match splitFirst sep l with
  | some (a, _) => a
  | none => l

/-- Python `s.split(sep)[1]` (used only when `sep` occurs). -/
def afterFirst (sep l : List Char) : List Char :=
  match splitFirst sep l with
  | some (_, b) => b
  | none => []

/-- Python `str.strip()`. -/
def pyStrip (l : List Char) : List Char :=
  ((l.dropWhile isWsChar).reverse.dropWhile isWsChar).reverse

/-- The markdown-fence stripping step.  `s.split(sep)[1].split("```")[0]`
equals the text between the first occurrence of `sep` and the next
occurrence of <three backticks> (any later occurrence of `"```json"`
begins with three backticks, so truncating at it first is immaterial). -/
def fenceStrip (cs : List Char) : List Char :=
  if containsSub ("```json".data) cs then
    pyStrip (beforeFirst ("```".data) (afterFirst ("```json".data) cs))
  else if containsSub ("```".data) cs then
    pyStrip (beforeFirst ("```".data) (afterFirst ("```".data) cs))
  else cs

/-- Python's `str.replace` for a two-character pattern replaced by a
single character (left-to-right, non-overlapping). -/
def replace2 (p1 p2 r : Char) : List Char → List Char
  | a :: b :: t =>
    if a = p1 ∧ b = p2 then r :: replace2 p1 p2 r t
    else a :: replace2 p1 p2 r (b :: t)
  | l => l

/-- `result.replace(',\x7d', '\x7d').replace(',]', ']')`. -/
def commaFix (cs : List Char) : List Char :=
  replace2 ',' ']' ']' (replace2 ',' '\x7d' '\x7d' cs)

/-- `re.search(r'\x7bo.*c\x7d', s, re.DOTALL)` for delimiters `o`/`c`:
greedy leftmost match, from the first `o` to the last `c`. -/
def braceExtract (o c : Char) (cs : List Char) : Option (List Char) :=
  match cs.findIdx? (· = o) with
  | none => none
  | some i =>
    match cs.reverse.findIdx? (· = c) with
    | none => none
    | some k =>
      let j := cs.length - 1 - k
      if i < j then some ((cs.drop i).take (j - i + 1)) else none

/-- The extraction engine's parse of an inference response
(`extract_with_groq`): fence strip, `json.loads`, trailing-comma
repair, `json.loads`, regex `\x7b.*\x7d` extraction, `json.loads`;
exhausting all of these raises. -/
def parseResponseObj (cs : List Char) : Except Unit Json :=
  let r := fenceStrip cs
  match json_loads r with
  | some v => Except.ok v
  | none =>
    let r2 := commaFix r
    match json_loads r2 with
    | some v => Except.ok v
    | none =>
      match braceExtract '\x7b' '\x7d' r2 with
      | some sub =>
        match json_loads sub with
        | some v => Except.ok v
        | none => Except.error ()
      | none => Except.error ()

/-- The validator's parse of a re-categorization response
(`re_categorize_suspicious`): fence strip, `json.loads`, regex
`[.*]` extraction, `json.loads`; `none` stands for every path on
which the Python code ends up returning the original transactions
(direct `return` or an exception caught by the outer handler). -/
def parseResponseArr (cs : List Char) : Option Json :=
  let r := fenceStrip cs
  match json_loads r with
  | some v => some v
  | none =>
    match braceExtract '[' ']' r with
    | some sub => json_loads sub
    | none => none

/-- A response wrapped in markdown ```json fences. -/
def fenceWrap (cs : List Char) : List Char :=
  "```json\n".data ++ cs ++ "\n```".data

/-! ## Suspicious-transaction re-categorization
(`ai/categorization_validator.py` lines 150-289) -/

/-- A suspicious transaction as handled by `re_categorize_suspicious`;
`data` summarizes the dict fields the function only prints.  Category
fields hold raw parsed JSON values, as the Python code assigns them
without conversion. -/
structure STxn where
  transaction_id : Option String
  data : String
  category : Option Json
  subcategory : Option Json
  category_confidence : Option Json
  re_categorized : Bool
  re_categorization_reasoning : Option Json

def JsonList.toList : JsonList → List Json
  | JsonList.nil => []
  | JsonList.cons x tl => x :: JsonList.toList tl

/-- Lookup in a parsed JSON object (Python dicts keep the last binding
of a duplicated key). -/
def jsonGet (k : String) : JsonMembers → Option Json
  | JsonMembers.nil => none
  | JsonMembers.cons k' v tl =>
    match jsonGet k tl with
    | some r => some r
    | none => if k' = k then some v else none

/-- One `updated_txn = \x7b**txn, ...\x7d` step; a non-dict entry makes the
Python loop raise (`none`). -/
def recatOne (txn : STxn) (entry : Json) : Option STxn :=
  match entry with
  | Json.obj kvs =>
    some { txn with
      category := some ((jsonGet "category" kvs).getD
        (txn.category.getD (Json.str "Other")))
      subcategory := some ((jsonGet "subcategory" kvs).getD
        (txn.subcategory.getD (Json.str "Uncategorized")))
      category_confidence := some ((jsonGet "confidence" kvs).getD
        (Json.fnum (1/2)))
      re_categorized := true
      re_categorization_reasoning := some ((jsonGet "reasoning" kvs).getD
        (Json.str "Re-categorized due to income context")) }
  | _ => none

/-- The `for i, txn in enumerate(suspicious_transactions)` loop:
transactions beyond the entry list are kept unchanged. -/
def recatLoop : List STxn → List Json → Option (List STxn)
  | [], _ => some []
  | t :: ts, [] =>
    match recatLoop ts [] with
    | some rest => some (t :: rest)
    | none => none
  | t :: ts, e :: es =>
    match recatOne t e with
    | some u =>
      match recatLoop ts es with
      | some rest => some (u :: rest)
      | none => none
    | none => none

/-- Application of a parsed re-categorization payload.  A JSON array is
zipped with the transactions; a parsed value on which the Python
`len`/indexing/`.get` calls raise is `none` (exception → original kept);
an empty dict or empty string has `len == 0`, so the loop keeps every
transaction unchanged.  (Reached only with a nonempty transaction list:
the empty case returns before the inference call.) -/
def applyRecatAll (txns : List STxn) (j : Json) : Option (List STxn) :=
  match j with
  | Json.arr entries => recatLoop txns entries.toList
  | Json.obj JsonMembers.nil => some txns
  | Json.str s => if s.isEmpty then some txns else none
  | _ => none

/-- `CategorizationValidator.re_categorize_suspicious`
(categorization_validator.py lines 150-289).  The inference call is the
oracle (raising or returning the response text). -/
def re_categorize_suspicious (oracle : Except Unit (List Char))
    (suspicious_transactions : List STxn) : List STxn :=
  if suspicious_transactions.isEmpty then []
  else
    match oracle with
    | Except.error _ => suspicious_transactions
    | Except.ok response =>
      match parseResponseArr response with
      | none => suspicious_transactions
      | some j =>
        match applyRecatAll suspicious_transactions j with
        | some out => out
        | none => suspicious_transactions

/-- The C8 counterexample value: its string member contains `,\x7d`. -/
def vBad : Json :=
  Json.obj (JsonMembers.cons "a" (Json.str ",\x7d") JsonMembers.nil)

/-- What the recovery chain actually produces from the trailing-comma
serialization of `vBad`. -/
def vBadMangled : Json :=
  Json.obj (JsonMembers.cons "a" (Json.str "\x7d") JsonMembers.nil)



/-! ## Income detection (`ai/income_detector.py` lines 69-200) -/

/-- A transaction as consumed by `detect_income`; `date` is the parsed
date (`datetime.min` is 0). -/
structure ITxn where
  date : Nat
  amount : ℚ
  transaction_type : String
  description : String
  balance_after : Option ℚ
deriving DecidableEq, Repr

/-- `INCOME_KEYWORDS` of `IncomeDetector`. -/
def INCOME_KEYWORDS : List String :=
  ["MAAŞ", "MAAŞ ÖDEMESİ", "MAAŞ ÖDEME", "SALARY", "PAYROLL", "ÜCRET",
   "GELİR", "HASILAT", "FAİZ GELİRİ", "DİVİDEND", "YATIRIM GETİRİSİ"]

/-- `NON_INCOME_KEYWORDS` of `IncomeDetector`. -/
def NON_INCOME_KEYWORDS : List String :=
  ["HAVALE", "EFT", "TRANSFER", "İADE", "REFUND", "GERİ ÖDEME", "BORÇ",
   "KREDİ"]

/-- `str.upper()` (ASCII folding; the fixed keyword tables and the
inputs compared in the theorems are unaffected by the difference to
Python's full Unicode folding). -/
def pyUpper (s : String) : String := String.mk (s.data.map Char.toUpper)

/-- `sorted(transactions, key=...date)` (Python sort is stable). -/
def sortByDateI (ts : List ITxn) : List ITxn :=
  List.insertionSort (fun a b => a.date ≤ b.date) ts

/-- `for prev in reversed(sorted_transactions): if date(prev) < date(txn)`. -/
def prevTxn (sorted : List ITxn) (t : ITxn) : Option ITxn :=
  sorted.reverse.find? (fun p => decide (p.date < t.date))

/-- `any(keyword in description for keyword in kws)`. -/
def hasKw (kws : List String) (desc : String) : Bool :=
  kws.any (fun k => containsSub k.data desc.data)

/-- The confidence computed for one credit transaction inside the
candidate loop of `detect_income` (lines 105-155). -/
def score (m : ℚ) (sorted : List ITxn) (t : ITxn) : ℚ :=
  let amount := |t.amount|
  let desc := pyUpper t.description
  let conf0 : ℚ :=
    if m * 2 ≤ amount then
      match t.balance_after with
      | some ba =>
        match prevTxn sorted t with
        | some p =>
          match p.balance_after with
          | some pb =>
            if |ba - pb - amount| < 1 then (95 : ℚ) / 100 else (85 : ℚ) / 100
          | none => (85 : ℚ) / 100
        | none => (85 : ℚ) / 100
      | none => (80 : ℚ) / 100
    else 0
  let hasInc := hasKw INCOME_KEYWORDS desc
  let hasNon := hasKw NON_INCOME_KEYWORDS desc
  if hasInc = true ∧ hasNon = false then
    if 0 < conf0 then min ((98 : ℚ) / 100) (conf0 + 1 / 10) else (7 : ℚ) / 10
  else if hasNon = true ∧ amount < m * 3 then
    max ((3 : ℚ) / 10) (conf0 - 2 / 10)
  else conf0

/-- `detect_income` (lines 69-200): returns each confirmed income
transaction with its `income_confidence`. -/
def detect_income (m : ℚ) (txns : List ITxn) : List (ITxn × ℚ) :=
  let sorted := sortByDateI txns
  let cands := (sorted.filter (fun t =>
      t.transaction_type == "credit" &&
      !(decide (|t.amount| < m)) &&
      decide (0 < score m sorted t))).map
    (fun t => (t, score m sorted t, |t.amount|))
  let sortedC := List.insertionSort (fun a b => b.2.2 ≤ a.2.2) cands
  let amountsSorted :=
    List.insertionSort (fun a b => b ≤ a) (sortedC.map (fun c => c.2.2))
  let threshold :=
    if 1 < sortedC.length then
      amountsSorted.getD (amountsSorted.length / 2) 0 * (3 / 2)
    else m
  (sortedC.filter (fun c =>
    decide (threshold ≤ c.2.2) || decide ((9 : ℚ) / 10 ≤ c.2.1))).map
    (fun c => (c.1, c.2.1))


/-- Concrete transactions exercising `detect_income`. -/
def wI1 : ITxn :=
  { date := 1, amount := 12000, transaction_type := "credit",
    description := "SALARY", balance_after := none }

def wI2 : ITxn :=
  { date := 1, amount := 18000, transaction_type := "credit",
    description := "SALARY", balance_after := none }

def wIPrev : ITxn :=
  { date := 1, amount := -300, transaction_type := "debit",
    description := "", balance_after := some 0 }

def wIS : ITxn :=
  { date := 2, amount := 12000, transaction_type := "credit",
    description := "", balance_after := some 12000 }

def wIL : ITxn :=
  { date := 2, amount := 18000, transaction_type := "credit",
    description := "", balance_after := some 12000 }


theorem hKwSalaryInc : hasKw INCOME_KEYWORDS (pyUpper "SALARY") = true := by
  decide

theorem hKwSalaryNon : hasKw NON_INCOME_KEYWORDS (pyUpper "SALARY") = false := by
  decide

theorem hKwEmptyInc : hasKw INCOME_KEYWORDS (pyUpper "") = false := by decide

theorem hKwEmptyNon : hasKw NON_INCOME_KEYWORDS (pyUpper "") = false := by decide

theorem sort_w12 : sortByDateI [wI1, wI2] = [wI1, wI2] := by
  simp [sortByDateI, List.insertionSort, List.orderedInsert, wI1, wI2]

theorem score_w1 : score 5000 [wI1, wI2] wI1 = 9 / 10 := by
  rw [score]
  rw [show wI1.balance_after = none from rfl]
  rw [show pyUpper wI1.description = pyUpper "SALARY" from rfl]
  rw [hKwSalaryInc, hKwSalaryNon]
  norm_num [wI1]

theorem score_w2 : score 5000 [wI1, wI2] wI2 = 9 / 10 := by
  rw [score]
  rw [show wI2.balance_after = none from rfl]
  rw [show pyUpper wI2.description = pyUpper "SALARY" from rfl]
  rw [hKwSalaryInc, hKwSalaryNon]
  norm_num [wI2]

theorem detect_income_eval_w :
    detect_income 5000 [wI1, wI2] = [(wI2, (9 : ℚ) / 10), (wI1, (9 : ℚ) / 10)] := by
  have ha1 : |wI1.amount| = (12000 : ℚ) := by
    rw [show wI1.amount = (12000 : ℚ) from rfl]; norm_num
  have ha2 : |wI2.amount| = (18000 : ℚ) := by
    rw [show wI2.amount = (18000 : ℚ) from rfl]; norm_num
  have hd1 : decide (|wI1.amount| < (5000 : ℚ)) = false :=
    decide_eq_false (by rw [ha1]; norm_num)
  have hd2 : decide (|wI2.amount| < (5000 : ℚ)) = false :=
    decide_eq_false (by rw [ha2]; norm_num)
  have hd3 : decide ((0 : ℚ) < 9 / 10) = true := decide_eq_true (by norm_num)
  rw [detect_income, sort_w12]
  simp only [score_w1, score_w2, List.filter, hd1, hd2, hd3,
    show (wI1.transaction_type == "credit") = true from rfl,
    show (wI2.transaction_type == "credit") = true from rfl,
    Bool.not_false, Bool.and_true, Bool.true_and, Bool.and_self]
  simp only [List.insertionSort, List.orderedInsert, ha1, ha2]
  norm_num

end SpendWise

/-! # Theorems -/

namespace SpendWise

/-! ## C10: `validate_periods` does not modify its input -/

theorem validateLoop_snd (m s c : ℚ) (res : ValidationResults)
    (ps : List VPeriod) :
    (validateLoop m s c res ps).2 = ps := by
  induction ps generalizing res with
  | nil => rfl
  | cons p ps ih => simp [validateLoop, ih]

/-- C10: for every list of periods, `validate_periods` leaves its input
untouched: the period list after the call is exactly the input list
(every period, its transactions, categories, totals included), the
function only builds and returns a fresh validation report. -/
theorem c10_validate_periods_frame (m s c : ℚ) (ps : List VPeriod) :
    (validate_periods m s c ps).2 = ps :=
  validateLoop_snd m s c _ ps

/-! ## C4: single-transaction threshold check -/

theorem suspicious_validateOnePeriod_eq (m s c : ℚ)
    (res : ValidationResults) (p : VPeriod)
    (h : ¬(p.period_id = "pre-income" ∨ p.income_amount = 0)) :
    (validateOnePeriod m s c res p).suspicious_transactions =
      res.suspicious_transactions ++
        p.transactions.filterMap (fun (t : VTxn) =>
          if t.transaction_type == "debit" ∧
              |t.amount| > p.income_amount * s then
            some ({ transaction_id := t.transaction_id
                    period_id := p.period_id
                    amount := |t.amount|
                    income_amount := p.income_amount
                    ratio := |t.amount| / p.income_amount
                    current_category := t.category.getD "Unknown" } :
                   Suspicious)
          else none) := by
  unfold validateOnePeriod
  rw [if_neg h]
  split <;> rfl

theorem mem_suspicious_validateOnePeriod (m s c : ℚ)
    (res : ValidationResults) (p : VPeriod) (x : Suspicious)
    (hx : x ∈ res.suspicious_transactions) :
    x ∈ (validateOnePeriod m s c res p).suspicious_transactions := by
  by_cases h : p.period_id = "pre-income" ∨ p.income_amount = 0
  · unfold validateOnePeriod
    rw [if_pos h]
    exact hx
  · rw [suspicious_validateOnePeriod_eq m s c res p h]
    exact List.mem_append_left _ hx

theorem mem_suspicious_validateLoop (m s c : ℚ)
    (res : ValidationResults) (ps : List VPeriod) (x : Suspicious)
    (hx : x ∈ res.suspicious_transactions) :
    x ∈ (validateLoop m s c res ps).1.suspicious_transactions := by
  induction ps generalizing res with
  | nil => exact hx
  | cons p ps ih =>
    exact ih _ (mem_suspicious_validateOnePeriod m s c res p x hx)

theorem suspicious_added_validateOnePeriod (m s c : ℚ)
    (res : ValidationResults) (p : VPeriod)
    (hid : p.period_id ≠ "pre-income") (hinc : p.income_amount ≠ 0)
    (t : VTxn) (ht : t ∈ p.transactions)
    (hdebit : t.transaction_type = "debit")
    (hbig : |t.amount| > p.income_amount * s) :
    ({ transaction_id := t.transaction_id
       period_id := p.period_id
       amount := |t.amount|
       income_amount := p.income_amount
       ratio := |t.amount| / p.income_amount
       current_category := t.category.getD "Unknown" } : Suspicious) ∈
      (validateOnePeriod m s c res p).suspicious_transactions := by
  rw [suspicious_validateOnePeriod_eq m s c res p (by simp [hid, hinc])]
  refine List.mem_append_right _ ?_
  rw [List.mem_filterMap]
  exact ⟨t, ht, by rw [if_pos (by simp [hdebit, hbig])]⟩

theorem suspicious_added_validateLoop (m s c : ℚ)
    (res : ValidationResults) (ps : List VPeriod)
    (p : VPeriod) (hp : p ∈ ps)
    (hid : p.period_id ≠ "pre-income") (hinc : p.income_amount ≠ 0)
    (t : VTxn) (ht : t ∈ p.transactions)
    (hdebit : t.transaction_type = "debit")
    (hbig : |t.amount| > p.income_amount * s) :
    ({ transaction_id := t.transaction_id
       period_id := p.period_id
       amount := |t.amount|
       income_amount := p.income_amount
       ratio := |t.amount| / p.income_amount
       current_category := t.category.getD "Unknown" } : Suspicious) ∈
      (validateLoop m s c res ps).1.suspicious_transactions := by
  revert hp
  induction ps generalizing res with
  | nil => intro hp; cases hp
  | cons q qs ih =>
    intro hp
    rcases List.mem_cons.mp hp with h | h
    · cases h
      simp only [validateLoop]
      exact mem_suspicious_validateLoop m s c _ qs _
        (suspicious_added_validateOnePeriod m s c res p hid hinc t ht
          hdebit hbig)
    · simpa [validateLoop] using ih _ h

/-- C4 (amended): for every period whose `income_amount` is nonzero and
whose `period_id` is not `"pre-income"`, every debit transaction whose
absolute amount strictly exceeds `income_amount * single_txn_r` is added
by `validate_periods` to `suspicious_transactions`, together with the
computed ratio and its current category. -/
theorem c4_single_txn_threshold (m s c : ℚ) (ps : List VPeriod)
    (p : VPeriod) (hp : p ∈ ps)
    (hid : p.period_id ≠ "pre-income") (hinc : p.income_amount ≠ 0)
    (t : VTxn) (ht : t ∈ p.transactions)
    (hdebit : t.transaction_type = "debit")
    (hbig : |t.amount| > p.income_amount * s) :
    ({ transaction_id := t.transaction_id
       period_id := p.period_id
       amount := |t.amount|
       income_amount := p.income_amount
       ratio := |t.amount| / p.income_amount
       current_category := t.category.getD "Unknown" } : Suspicious) ∈
      (validate_periods m s c ps).1.suspicious_transactions :=
  suspicious_added_validateLoop m s c _ ps p hp hid hinc t ht hdebit hbig

/-- Witness for C4: the claim's own instance — income 1000, a single
debit of 600 (ratio 0.6 > 0.5) in `period-1` — lands in
`suspicious_transactions`. -/
theorem c4_single_txn_threshold_witness :
    ({ transaction_id := some "t1"
       period_id := "period-1"
       amount := 600
       income_amount := 1000
       ratio := 600 / 1000
       current_category := "Food & Dining" } : Suspicious) ∈
      (validate_periods 1 (1/2) (3/10)
        [{ period_id := "period-1"
           income_amount := 1000
           transactions := [{ transaction_id := some "t1"
                              transaction_type := "debit"
                              amount := -600
                              category := some "Food & Dining" }]
           total_expenses := 600 }]).1.suspicious_transactions := by
  have h := c4_single_txn_threshold 1 (1/2) (3/10)
    [{ period_id := "period-1"
       income_amount := 1000
       transactions := [{ transaction_id := some "t1"
                          transaction_type := "debit"
                          amount := -600
                          category := some "Food & Dining" }]
       total_expenses := 600 }]
    { period_id := "period-1"
      income_amount := 1000
      transactions := [{ transaction_id := some "t1"
                         transaction_type := "debit"
                         amount := -600
                         category := some "Food & Dining" }]
      total_expenses := 600 }
    (by simp) (by simp) (by norm_num)
    { transaction_id := some "t1"
      transaction_type := "debit"
      amount := -600
      category := some "Food & Dining" }
    (by simp) rfl (by norm_num)
  simpa using h

/-- C4 counterexample to the unamended claim: a period with nonzero
income (1000) and a qualifying debit (600 > 500) whose `period_id` is
`"pre-income"` is skipped entirely, so `suspicious_transactions` stays
empty. -/
theorem c4_pre_income_counterexample :
    ((1000 : ℚ) ≠ 0) ∧ (|(-600 : ℚ)| > 1000 * (1/2)) ∧
    (validate_periods 1 (1/2) (3/10)
      [{ period_id := "pre-income"
         income_amount := 1000
         transactions := [{ transaction_id := some "t1"
                            transaction_type := "debit"
                            amount := -600
                            category := some "Food & Dining" }]
         total_expenses := 600 }]).1.suspicious_transactions = [] := by
  refine ⟨by norm_num, by norm_num, ?_⟩
  simp [validate_periods, validateLoop, validateOnePeriod]

/-! ## C1: the periods do not partition the transaction set -/

/-- C1 fails on the code: on the spec's own §8 example (income on day 3,
debits on days 10 and 20), the last transaction is dropped — the final
period's transaction filter is strict at `period_end`, which for the
last income event is the last transaction's own date.  `group_into_periods`
returns a single period containing only the income and the day-10 debit,
so the union of the periods' transaction lists omits `exTxn3`. -/
theorem c1_partition_failure :
    exTxn3 ∈ exTxns ∧
    group_into_periods exTxns exIncomes =
      [makePeriod (sortByDate exTxns) exTxn1 none 0 none] ∧
    (group_into_periods exTxns exIncomes).flatMap Period.transactions =
      [exTxn1, exTxn2] := by
  refine ⟨by simp [exTxns], ?_, ?_⟩ <;>
    norm_num [group_into_periods, prePeriods, mainPeriods, mainLoop,
      makePeriod, sortByDate, List.insertionSort, List.orderedInsert,
      exTxns, exIncomes, exTxn1, exTxn2, exTxn3, sumExpenses, sumCredits,
      dateField]

/-! ## C2: balance propagation -/

theorem mainLoop_length (st rest : List PTxn) (i : Nat) (pe : Option ℚ) :
    (mainLoop st rest i pe).length = rest.length := by
  induction rest generalizing i pe with
  | nil => rfl
  | cons inc restInc ih => simp [mainLoop, ih]

theorem mainLoop_getElem? (st : List PTxn) :
    ∀ (rest : List PTxn) (i : Nat) (pe : Option ℚ) (k : Nat) (inc : PTxn),
      rest[k]? = some inc →
      (mainLoop st rest i pe)[k]? =
        some (makePeriod st inc (rest[k+1]?) (i + k)
          (match k with
           | 0 => pe
           | j + 1 => ((mainLoop st rest i pe)[j]?).bind Period.ending_balance))
  | [], _, _, k, inc => by simp
  | inc0 :: restInc, i, pe, 0, inc => by
    intro h
    simp only [List.getElem?_cons_zero, Option.some.injEq] at h
    subst h
    simp [mainLoop, List.head?_eq_getElem?]
  | inc0 :: restInc, i, pe, k + 1, inc => by
    intro h
    simp only [List.getElem?_cons_succ] at h
    have ih := mainLoop_getElem? st restInc (i + 1)
      (makePeriod st inc0 restInc.head? i pe).ending_balance k inc h
    simp only [mainLoop, List.getElem?_cons_succ]
    rw [ih]
    congr 1
    have harith : i + 1 + k = i + (k + 1) := by omega
    rw [harith]
    congr 1
    cases k with
    | zero =>
      simp [mainLoop, List.head?_eq_getElem?]
    | succ j =>
      simp [mainLoop]

/-- C2: for every income event (0-indexed `k` here, 1-indexed `i = k+1`
in the claim), the `starting_balance` of `period-(k+1)` is the income's
recorded `balance_after` when present, else the previous period's
`ending_balance` plus the income's absolute amount when `k > 0`, else
the income's absolute amount; and `ending_balance` is
`starting_balance - total_expenses + other_credits`. -/
theorem c2_balance_propagation (txns incs : List PTxn) (h : incs ≠ []) :
    group_into_periods txns incs =
      prePeriods txns incs ++ mainPeriods txns incs ∧
    (mainPeriods txns incs).length = (sortByDate incs).length ∧
    ∀ k, k < (sortByDate incs).length →
      ∃ (p : Period) (inc : PTxn),
        (mainPeriods txns incs)[k]? = some p ∧
        (sortByDate incs)[k]? = some inc ∧
        p.income_amount = |inc.amount| ∧
        (∀ b, inc.balance_after = some b → p.starting_balance = some b) ∧
        (inc.balance_after = none → k = 0 →
          p.starting_balance = some |inc.amount|) ∧
        (inc.balance_after = none → ∀ j, k = j + 1 →
          ∃ (q : Period) (e : ℚ),
            (mainPeriods txns incs)[j]? = some q ∧
            q.ending_balance = some e ∧
            p.starting_balance = some (e + |inc.amount|)) ∧
        (∃ (s oc : ℚ),
          p.starting_balance = some s ∧
          p.other_credits = some oc ∧
          p.ending_balance = some (s - p.total_expenses + oc)) := by
  have hne : ¬(sortByDate incs).isEmpty := by
    cases incs with
    | nil => exact absurd rfl h
    | cons a l =>
      have := List.perm_insertionSort (fun a b : PTxn => a.date ≤ b.date) (a :: l)
      intro hemp
      rw [List.isEmpty_iff] at hemp
      rw [sortByDate] at hemp
      have := this.symm.length_eq
      rw [hemp] at this
      simp at this
  refine ⟨by rw [group_into_periods, if_neg hne], mainLoop_length _ _ _ _, ?_⟩
  intro k hk
  have hinc : (sortByDate incs)[k]? = some ((sortByDate incs)[k]) :=
    List.getElem?_eq_getElem hk
  have hmain := mainLoop_getElem? (sortByDate txns) (sortByDate incs) 0 none k _ hinc
  rw [mainPeriods]
  refine ⟨_, _, hmain, hinc, ?_, ?_, ?_, ?_, ?_⟩
  · simp [makePeriod]
  · intro b hb
    simp [makePeriod, hb]
  · intro hb hk0
    subst hk0
    simp [makePeriod, hb]
  · intro hb j hkj
    subst hkj
    have hjlt : j < (sortByDate incs).length := by omega
    have hincj : (sortByDate incs)[j]? = some ((sortByDate incs)[j]) :=
      List.getElem?_eq_getElem hjlt
    have hmainj := mainLoop_getElem? (sortByDate txns) (sortByDate incs) 0 none j _ hincj
    refine ⟨_, _, hmainj, rfl, ?_⟩
    simp only [makePeriod, hb]
    rw [hmainj]
    simp [makePeriod]
  · simp [makePeriod]

/-- Witness for C2 at the §8 example input. -/
theorem c2_balance_propagation_witness :
    group_into_periods exTxns exIncomes =
      prePeriods exTxns exIncomes ++ mainPeriods exTxns exIncomes ∧
    (mainPeriods exTxns exIncomes).length = (sortByDate exIncomes).length ∧
    ∀ k, k < (sortByDate exIncomes).length →
      ∃ (p : Period) (inc : PTxn),
        (mainPeriods exTxns exIncomes)[k]? = some p ∧
        (sortByDate exIncomes)[k]? = some inc ∧
        p.income_amount = |inc.amount| ∧
        (∀ b, inc.balance_after = some b → p.starting_balance = some b) ∧
        (inc.balance_after = none → k = 0 →
          p.starting_balance = some |inc.amount|) ∧
        (inc.balance_after = none → ∀ j, k = j + 1 →
          ∃ (q : Period) (e : ℚ),
            (mainPeriods exTxns exIncomes)[j]? = some q ∧
            q.ending_balance = some e ∧
            p.starting_balance = some (e + |inc.amount|)) ∧
        (∃ (s oc : ℚ),
          p.starting_balance = some s ∧
          p.other_credits = some oc ∧
          p.ending_balance = some (s - p.total_expenses + oc)) :=
  c2_balance_propagation exTxns exIncomes (by simp [exIncomes])


/-! ## C5: batch failure containment in categorization -/

/-- C5: if the inference call for one batch raises, every transaction
of that batch is returned with category `"Other"`, subcategory
`"Uncategorized"` and confidence `0`, the remaining batches are still
processed, and every other batch's transactions receive exactly the
categories produced by merging that batch's own inference result —
failure does not leak across batches. -/
theorem c5_batch_failure_containment
    (oracle : List Txn0 → Except Unit (List CatInfo))
    (batch_size : Nat) (txns : List Txn0) (i : Nat) (bi : List Txn0)
    (hi : (chunkList batch_size txns)[i]? = some bi)
    (herr : oracle bi = Except.error ()) :
    categorize_transactions oracle batch_size txns =
      ((chunkList batch_size txns).take i).flatMap (processBatch oracle) ++
        bi.map fallbackTxn ++
        ((chunkList batch_size txns).drop (i + 1)).flatMap
          (processBatch oracle) ∧
    (∀ t : Txn0, (fallbackTxn t).category = "Other" ∧
      (fallbackTxn t).subcategory = "Uncategorized" ∧
      (fallbackTxn t).category_confidence = 0) ∧
    (∀ j (bj : List Txn0), j ≠ i →
      (chunkList batch_size txns)[j]? = some bj →
      ∀ cats, oracle bj = Except.ok cats →
        processBatch oracle bj = bj.map (mergeTxn bj cats)) := by
  refine ⟨?_, fun t => ⟨rfl, rfl, rfl⟩, ?_⟩
  · obtain ⟨h, hb⟩ := List.getElem?_eq_some_iff.mp hi
    have hdecomp : chunkList batch_size txns =
        (chunkList batch_size txns).take i ++
          bi :: (chunkList batch_size txns).drop (i + 1) := by
      conv_lhs => rw [← List.take_append_drop i (chunkList batch_size txns)]
      rw [List.drop_eq_getElem_cons h, hb]
    unfold categorize_transactions
    conv_lhs => rw [hdecomp]
    simp [processBatch, herr, List.append_assoc]
  · intro j bj _ _ cats hok
    simp [processBatch, hok]

/-- Concrete inputs for the C5 witness: two one-transaction batches,
the first of which makes the inference call raise. -/
def wTxnA : Txn0 :=
  { transaction_id := some "a", description := "FAIL", amount := 0 }

def wTxnB : Txn0 :=
  { transaction_id := some "b", description := "POS MIGROS", amount := -50 }

def wCatB : CatInfo :=
  { transaction_id := some "b", category := some "Food & Dining"
    subcategory := some "Groceries", confidence := some (9/10)
    tags := some [] }

def wOracle : List Txn0 → Except Unit (List CatInfo) := fun b =>
  match b.head? with
  | some t => if t.description = "FAIL" then Except.error () else Except.ok [wCatB]
  | none => Except.ok []

/-- Witness for C5: batch 1 (`wTxnA`) raises, batch 2 (`wTxnB`) does
not; the first batch gets the fallback annotation and the second its
own inference result. -/
theorem c5_batch_failure_containment_witness :
    categorize_transactions wOracle 1 [wTxnA, wTxnB] =
      ((chunkList 1 [wTxnA, wTxnB]).take 0).flatMap (processBatch wOracle) ++
        [wTxnA].map fallbackTxn ++
        ((chunkList 1 [wTxnA, wTxnB]).drop 1).flatMap (processBatch wOracle) ∧
    (∀ t : Txn0, (fallbackTxn t).category = "Other" ∧
      (fallbackTxn t).subcategory = "Uncategorized" ∧
      (fallbackTxn t).category_confidence = 0) ∧
    (∀ j (bj : List Txn0), j ≠ 0 →
      (chunkList 1 [wTxnA, wTxnB])[j]? = some bj →
      ∀ cats, wOracle bj = Except.ok cats →
        processBatch wOracle bj = bj.map (mergeTxn bj cats)) :=
  c5_batch_failure_containment wOracle 1 [wTxnA, wTxnB] 0 [wTxnA]
    (by simp [chunkList, wTxnA, wTxnB])
    (by simp [wOracle, wTxnA])

/-! ## C7: batch extraction merge policy -/

theorem batchFold_snd (oracle : List XRecord → Except Unit ExtractResult)
    (bh : Option String) (total : Nat) :
    ∀ (chunks : List (List XRecord)) (idx : Nat)
      (acc : CombinedResult × List ETxn),
      (batchFold oracle bh total chunks idx acc).2 =
        acc.2 ++ chunks.flatMap (fun ch =>
          match oracle ch with
          | Except.ok r => r.transactions
          | Except.error _ => [])
  | [], _, _ => by simp [batchFold]
  | ch :: rest, idx, acc => by
    rw [batchFold, batchFold_snd oracle bh total rest (idx + 1) _]
    cases horacle : oracle ch <;>
      simp [batchStep, horacle, List.append_assoc]

theorem batchStep_meta_ne1 (oracle : List XRecord → Except Unit ExtractResult)
    (bh : Option String) (total idx : Nat) (ch : List XRecord)
    (acc : CombinedResult × List ETxn) (h : idx ≠ 1) :
    (batchStep oracle bh total idx ch acc).1.bank_name = acc.1.bank_name ∧
    (batchStep oracle bh total idx ch acc).1.account_number = acc.1.account_number ∧
    (batchStep oracle bh total idx ch acc).1.statement_period_start =
      acc.1.statement_period_start ∧
    (batchStep oracle bh total idx ch acc).1.currency = acc.1.currency := by
  cases horacle : oracle ch
  · simp [batchStep, horacle]
  · simp only [batchStep, horacle, if_neg h]
    split <;> simp

theorem batchFold_meta_ge2 (oracle : List XRecord → Except Unit ExtractResult)
    (bh : Option String) (total : Nat) :
    ∀ (chunks : List (List XRecord)) (idx : Nat)
      (acc : CombinedResult × List ETxn), 2 ≤ idx →
      (batchFold oracle bh total chunks idx acc).1.bank_name = acc.1.bank_name ∧
      (batchFold oracle bh total chunks idx acc).1.account_number =
        acc.1.account_number ∧
      (batchFold oracle bh total chunks idx acc).1.statement_period_start =
        acc.1.statement_period_start ∧
      (batchFold oracle bh total chunks idx acc).1.currency = acc.1.currency
  | [], _, _, _ => ⟨rfl, rfl, rfl, rfl⟩
  | ch :: rest, idx, acc, h => by
    have hstep := batchStep_meta_ne1 oracle bh total idx ch acc (by omega)
    have hih := batchFold_meta_ge2 oracle bh total rest (idx + 1)
      (batchStep oracle bh total idx ch acc) (by omega)
    rw [batchFold]
    exact ⟨hih.1.trans hstep.1, hih.2.1.trans hstep.2.1,
      hih.2.2.1.trans hstep.2.2.1, hih.2.2.2.trans hstep.2.2.2⟩

theorem batchFold_last (oracle : List XRecord → Except Unit ExtractResult)
    (bh : Option String) (total : Nat) :
    ∀ (chunks : List (List XRecord)) (idx : Nat)
      (acc : CombinedResult × List ETxn) (chL : List XRecord)
      (r : ExtractResult),
      chunks.getLast? = some chL → oracle chL = Except.ok r →
      idx + chunks.length = total + 1 →
      (batchFold oracle bh total chunks idx acc).1.statement_period_end =
        r.statement_period_end ∧
      (batchFold oracle bh total chunks idx acc).1.closing_balance =
        r.closing_balance
  | [], _, _, _, _ => by simp
  | [ch], idx, acc, chL, r => by
    intro hlast hok hlen
    have hchL : ch = chL := by
      have : some ch = some chL := by simpa using hlast
      exact Option.some.inj this
    subst hchL
    have hidx : idx = total := by
      simp only [List.length_cons, List.length_nil] at hlen
      omega
    subst hidx
    simp [batchFold, batchStep, hok]
  | ch :: ch' :: rest, idx, acc, chL, r => by
    intro hlast hok hlen
    have hlast' : (ch' :: rest).getLast? = some chL := by
      rwa [List.getLast?_cons_cons] at hlast
    have := batchFold_last oracle bh total (ch' :: rest) (idx + 1)
      (batchStep oracle bh total idx ch acc) chL r hlast' hok
      (by simp only [List.length_cons] at hlen ⊢; omega)
    rw [batchFold]
    exact this

/-- C7: in `extract_transactions_batch`, the combined transactions list
is the concatenation of the successful chunks' transactions in chunk
order (a raised chunk contributes nothing and processing continues);
`bank_name`, `account_number`, `statement_period_start` and `currency`
come from the first chunk's result when its extraction succeeds, and
`statement_period_end`/`closing_balance` from the last chunk's result
when its extraction succeeds. -/
theorem c7_batch_merge_policy
    (oracle : List XRecord → Except Unit ExtractResult)
    (bank_hint : Option String) (chunk_size : Nat)
    (records : List XRecord) :
    (extract_transactions_batch oracle bank_hint chunk_size records).transactions =
      (chunkList chunk_size records).flatMap (fun ch =>
        match oracle ch with
        | Except.ok r => r.transactions
        | Except.error _ => []) ∧
    (∀ ch0 rest, chunkList chunk_size records = ch0 :: rest →
      ∀ r, oracle ch0 = Except.ok r →
        (extract_transactions_batch oracle bank_hint chunk_size
          records).bank_name = r.bank_name.getD (bank_hint.getD "") ∧
        (extract_transactions_batch oracle bank_hint chunk_size
          records).account_number = r.account_number ∧
        (extract_transactions_batch oracle bank_hint chunk_size
          records).statement_period_start = r.statement_period_start ∧
        (extract_transactions_batch oracle bank_hint chunk_size
          records).currency = r.currency.getD "TRY") ∧
    (∀ chL, (chunkList chunk_size records).getLast? = some chL →
      ∀ r, oracle chL = Except.ok r →
        (extract_transactions_batch oracle bank_hint chunk_size
          records).statement_period_end = r.statement_period_end ∧
        (extract_transactions_batch oracle bank_hint chunk_size
          records).closing_balance = r.closing_balance) := by
  refine ⟨?_, ?_, ?_⟩
  · unfold extract_transactions_batch
    simp [batchFold_snd]
  · intro ch0 rest hchunks r hok
    unfold extract_transactions_batch
    rw [hchunks]
    simp only [batchFold]
    have hpres := batchFold_meta_ge2 oracle bank_hint (ch0 :: rest).length
      rest 2 (batchStep oracle bank_hint (ch0 :: rest).length 1 ch0
        (initCombined bank_hint, [])) (by omega)
    have hstep1 :
        (batchStep oracle bank_hint (ch0 :: rest).length 1 ch0
          (initCombined bank_hint, [])).1.bank_name =
            r.bank_name.getD (bank_hint.getD "") ∧
        (batchStep oracle bank_hint (ch0 :: rest).length 1 ch0
          (initCombined bank_hint, [])).1.account_number =
            r.account_number ∧
        (batchStep oracle bank_hint (ch0 :: rest).length 1 ch0
          (initCombined bank_hint, [])).1.statement_period_start =
            r.statement_period_start ∧
        (batchStep oracle bank_hint (ch0 :: rest).length 1 ch0
          (initCombined bank_hint, [])).1.currency =
            r.currency.getD "TRY" := by
      simp only [batchStep, hok]
      split <;> simp
    exact ⟨hpres.1.trans hstep1.1, hpres.2.1.trans hstep1.2.1,
      hpres.2.2.1.trans hstep1.2.2.1, hpres.2.2.2.trans hstep1.2.2.2⟩
  · intro chL hlast r hok
    unfold extract_transactions_batch
    have hne : chunkList chunk_size records ≠ [] := by
      intro hemp
      rw [hemp] at hlast
      cases hlast
    have := batchFold_last oracle bank_hint
      (chunkList chunk_size records).length
      (chunkList chunk_size records) 1 (initCombined bank_hint, [])
      chL r hlast hok (by omega)
    exact this


/-- Concrete inputs for the C7 witness: two one-record chunks, both
extracted successfully with different metadata. -/
def wRecA : XRecord := { payload := "r1" }

def wRecB : XRecord := { payload := "r2" }

def wRes1 : ExtractResult :=
  { bank_name := some "Garanti BBVA", account_number := some "****1234"
    statement_period_start := some "2024-01-01"
    statement_period_end := some "2024-01-15"
    opening_balance := none, closing_balance := some 100
    currency := some "TRY", transactions := [{ payload := "t1" }] }

def wRes2 : ExtractResult :=
  { bank_name := some "Other Bank", account_number := none
    statement_period_start := some "2024-01-16"
    statement_period_end := some "2024-01-31"
    opening_balance := none, closing_balance := some 42
    currency := some "USD", transactions := [{ payload := "t2" }] }

def wXOracle : List XRecord → Except Unit ExtractResult := fun ch =>
  match ch.head? with
  | some rec => if rec.payload = "r1" then Except.ok wRes1 else Except.ok wRes2
  | none => Except.error ()

/-- Witness for C7: with two successful chunks, the transactions are
concatenated and the metadata is taken from the first/last chunk as
the claim states. -/
theorem c7_batch_merge_policy_witness :
    (extract_transactions_batch wXOracle (some "Hint") 1
      [wRecA, wRecB]).transactions =
        [{ payload := "t1" }, { payload := "t2" }] ∧
    (extract_transactions_batch wXOracle (some "Hint") 1
      [wRecA, wRecB]).bank_name = "Garanti BBVA" ∧
    (extract_transactions_batch wXOracle (some "Hint") 1
      [wRecA, wRecB]).account_number = some "****1234" ∧
    (extract_transactions_batch wXOracle (some "Hint") 1
      [wRecA, wRecB]).statement_period_start = some "2024-01-01" ∧
    (extract_transactions_batch wXOracle (some "Hint") 1
      [wRecA, wRecB]).currency = "TRY" ∧
    (extract_transactions_batch wXOracle (some "Hint") 1
      [wRecA, wRecB]).statement_period_end = some "2024-01-31" ∧
    (extract_transactions_batch wXOracle (some "Hint") 1
      [wRecA, wRecB]).closing_balance = some 42 := by
  obtain ⟨ht, hfirst, hlast⟩ :=
    c7_batch_merge_policy wXOracle (some "Hint") 1 [wRecA, wRecB]
  have hchunks : chunkList 1 [wRecA, wRecB] = [[wRecA], [wRecB]] := by
    simp [chunkList]
  have h1 := hfirst [wRecA] [[wRecB]] hchunks wRes1
    (by simp [wXOracle, wRecA])
  have h2 := hlast [wRecB] (by rw [hchunks]; rfl) wRes2
    (by simp [wXOracle, wRecB, wRecA])
  refine ⟨?_, ?_, ?_, ?_, ?_, ?_, ?_⟩
  · rw [ht, hchunks]
    simp [wXOracle, wRecA, wRecB, wRes1, wRes2]
  · rw [h1.1]; rfl
  · rw [h1.2.1]; rfl
  · rw [h1.2.2.1]; rfl
  · rw [h1.2.2.2]; rfl
  · rw [h2.1]; rfl
  · rw [h2.2]; rfl

/-! ## C9: bank detection from text -/

theorem findSome?_guard_first {γ : Type} (cond : String × γ → Bool) :
    ∀ (l : List (String × γ)) (b : String),
      l.findSome? (fun bp => if cond bp then some bp.1 else none) = some b →
      ∃ i, ∃ hi : i < l.length,
        (l.get ⟨i, hi⟩).1 = b ∧ cond (l.get ⟨i, hi⟩) = true ∧
        ∀ j (hj : j < i),
          cond (l.get ⟨j, Nat.lt_trans hj hi⟩) = false
  | [], b => by simp
  | x :: xs, b => by
    intro h
    rw [List.findSome?_cons] at h
    by_cases hc : cond x
    · rw [if_pos hc] at h
      refine ⟨0, by simp, ?_, ?_, ?_⟩
      · exact Option.some.inj h
      · exact hc
      · intro j hj; omega
    · rw [if_neg hc] at h
      obtain ⟨i, hi, hb, hcond, hprev⟩ := findSome?_guard_first cond xs b h
      refine ⟨i + 1, by simpa using Nat.succ_lt_succ hi, ?_, ?_, ?_⟩
      · simpa using hb
      · simpa using hcond
      · intro j hj
        cases j with
        | zero => simpa using Bool.eq_false_iff.mpr hc
        | succ k =>
          have hk : k < i := by omega
          simpa using hprev k hk

/-- C9: `detect_from_text` returns `None` exactly when no pattern of
any bank matches the text (in particular on empty input), and when it
returns a bank it is the first bank in the fixed case-insensitive
pattern table with a matching pattern (the table-priority reading of
"the single best-matching bank name"). -/
theorem c9_detect_from_text (text : String) :
    (detect_from_text text = none ↔
      ∀ bp ∈ BANK_PATTERNS, ∀ p ∈ bp.2, re_search p text = false) ∧
    (∀ b, detect_from_text text = some b →
      ∃ i, ∃ hi : i < BANK_PATTERNS.length,
        (BANK_PATTERNS.get ⟨i, hi⟩).1 = b ∧
        (BANK_PATTERNS.get ⟨i, hi⟩).2.any (fun p => re_search p text) = true ∧
        ∀ j (hj : j < i),
          (BANK_PATTERNS.get ⟨j, Nat.lt_trans hj hi⟩).2.any
            (fun p => re_search p text) = false) := by
  by_cases htext : text = ""
  · subst htext
    constructor
    · rw [detect_from_text, if_pos rfl]
      constructor
      · intro _
        decide
      · intro _
        rfl
    · intro b hb
      rw [detect_from_text, if_pos rfl] at hb
      cases hb
  · constructor
    · rw [detect_from_text, if_neg htext, List.findSome?_eq_none_iff]
      constructor
      · intro h bp hbp p hp
        have hbpnone := h bp hbp
        by_cases hany : bp.2.any (fun p => re_search p text)
        · rw [if_pos hany] at hbpnone
          cases hbpnone
        · exact Bool.eq_false_iff.mpr
            (List.any_eq_false.mp (Bool.eq_false_iff.mpr hany) p hp)
      · intro h bp hbp
        rw [if_neg]
        intro hany
        obtain ⟨p, hp, hmatch⟩ := List.any_eq_true.mp hany
        rw [h bp hbp p hp] at hmatch
        cases hmatch
    · intro b hb
      rw [detect_from_text, if_neg htext] at hb
      exact findSome?_guard_first _ BANK_PATTERNS b hb

/-- Witness for C9: on a text matching a Garanti pattern, the returned
bank is the first (index 0) matching entry of the table. -/
theorem c9_detect_from_text_witness :
    ∃ i, ∃ hi : i < BANK_PATTERNS.length,
      (BANK_PATTERNS.get ⟨i, hi⟩).1 = "Garanti BBVA" ∧
      (BANK_PATTERNS.get ⟨i, hi⟩).2.any
        (fun p => re_search p "Garanti  BBVA ekstre") = true ∧
      ∀ j (hj : j < i),
        (BANK_PATTERNS.get ⟨j, Nat.lt_trans hj hi⟩).2.any
          (fun p => re_search p "Garanti  BBVA ekstre") = false :=
  (c9_detect_from_text "Garanti  BBVA ekstre").2 "Garanti BBVA" (by decide)


/-! ## C6: re-categorization failure keeps the original transactions -/

/-- C6: `re_categorize_suspicious` returns the original suspicious
transactions unchanged whenever the inference call raises, the response
cannot be parsed after all recovery attempts, or applying the parsed
payload raises — no transaction is discarded or modified on failure. -/
theorem c6_recat_failure_keeps_original (oracle : Except Unit (List Char))
    (suspicious : List STxn) :
    (∀ e : Unit, oracle = Except.error e →
      re_categorize_suspicious oracle suspicious = suspicious) ∧
    (∀ response, oracle = Except.ok response →
      parseResponseArr response = none →
      re_categorize_suspicious oracle suspicious = suspicious) ∧
    (∀ response j, oracle = Except.ok response →
      parseResponseArr response = some j →
      applyRecatAll suspicious j = none →
      re_categorize_suspicious oracle suspicious = suspicious) := by
  refine ⟨?_, ?_, ?_⟩
  · intro e he
    subst he
    by_cases h : suspicious.isEmpty
    · rw [re_categorize_suspicious, if_pos h, List.isEmpty_iff.mp h]
    · rw [re_categorize_suspicious, if_neg h]
  · intro response hresp hparse
    subst hresp
    by_cases h : suspicious.isEmpty
    · rw [re_categorize_suspicious, if_pos h, List.isEmpty_iff.mp h]
    · rw [re_categorize_suspicious, if_neg h]
      simp only [hparse]
  · intro response j hresp hparse happly
    subst hresp
    by_cases h : suspicious.isEmpty
    · rw [re_categorize_suspicious, if_pos h, List.isEmpty_iff.mp h]
    · rw [re_categorize_suspicious, if_neg h]
      simp only [hparse, happly]

/-- A concrete suspicious transaction for the C6 witness. -/
def wSusp : STxn :=
  { transaction_id := some "t9"
    data := "POS 600"
    category := some (Json.str "Food & Dining")
    subcategory := some (Json.str "Restaurants")
    category_confidence := some (Json.fnum (9/10))
    re_categorized := false
    re_categorization_reasoning := none }

/-- Witness for C6: an unparseable response leaves the transaction
untouched. -/
theorem c6_recat_failure_keeps_original_witness :
    re_categorize_suspicious (Except.ok ("no json here".data)) [wSusp] =
      [wSusp] :=
  (c6_recat_failure_keeps_original (Except.ok ("no json here".data))
    [wSusp]).2.1 ("no json here".data) rfl (by rfl)

/-! ## C8: JSON recovery -/

/-- C8 fails on the code as stated: for the value `vBad`, whose string
member contains `,\x7d`, the clean serialization parses back to `vBad`,
but the trailing-comma variant is corrupted by the
`replace(',\x7d','\x7d')` repair (which also fires inside the string
literal) and parses to a different structure. -/
theorem c8_trailing_comma_counterexample :
    parseResponseObj (dumps vBad) = Except.ok vBad ∧
    parseResponseObj (dumpsT vBad) = Except.ok vBadMangled ∧
    vBad ≠ vBadMangled := by
  refine ⟨rfl, rfl, ?_⟩
  intro h
  simp only [vBad, vBadMangled, Json.obj.injEq, JsonMembers.cons.injEq,
    Json.str.injEq] at h
  exact absurd h.2.1 (by decide)


/-! ## C8 lemma suite: characters, digits, serializer shape -/

theorem digit_facts : ∀ k : Fin 10,
    isDigitChar (Char.ofNat (48 + k.1)) = true ∧
    isWsJson (Char.ofNat (48 + k.1)) = false ∧
    isWsChar (Char.ofNat (48 + k.1)) = false ∧
    (Char.ofNat (48 + k.1)).toNat = 48 + k.1 ∧
    Char.ofNat (48 + k.1) ≠ ']' ∧ Char.ofNat (48 + k.1) ≠ '\x7d' ∧
    Char.ofNat (48 + k.1) ≠ ',' ∧ Char.ofNat (48 + k.1) ≠ '"' ∧
    Char.ofNat (48 + k.1) ≠ '[' ∧ Char.ofNat (48 + k.1) ≠ '\x7b' ∧
    Char.ofNat (48 + k.1) ≠ 't' ∧ Char.ofNat (48 + k.1) ≠ 'f' ∧
    Char.ofNat (48 + k.1) ≠ 'n' ∧ Char.ofNat (48 + k.1) ≠ '`' ∧
    Char.ofNat (48 + k.1) ≠ ':' ∧ Char.ofNat (48 + k.1) ≠ '-' ∧
    Char.ofNat (48 + k.1) ≠ '\\' := by decide

theorem natChars_shape : ∀ n : Nat,
    (∃ d ds, natChars n = d :: ds) ∧
      (∀ c ∈ natChars n, ∃ k : Fin 10, c = Char.ofNat (48 + k.1))
  | n => by
    rw [natChars]
    by_cases h : n < 10
    · rw [if_pos h]
      refine ⟨⟨_, _, rfl⟩, ?_⟩
      intro c hc
      simp only [List.mem_singleton] at hc
      exact ⟨⟨n, h⟩, hc⟩
    · rw [if_neg h]
      obtain ⟨⟨d, ds, hd⟩, hall⟩ := natChars_shape (n / 10)
      refine ⟨⟨d, ds ++ [Char.ofNat (48 + n % 10)], by rw [hd]; rfl⟩, ?_⟩
      intro c hc
      rw [List.mem_append] at hc
      rcases hc with hc | hc
      · exact hall c hc
      · simp only [List.mem_singleton] at hc
        exact ⟨⟨n % 10, Nat.mod_lt _ (by omega)⟩, hc⟩
termination_by n => n
decreasing_by exact Nat.div_lt_self (by omega) (by omega)

theorem digitsVal_append_digit (A : List Char) (d : Char) :
    digitsVal (A ++ [d]) = digitsVal A * 10 + (d.toNat - 48) := by
  simp [digitsVal, List.foldl_append]

theorem digitsVal_natChars (n : Nat) : digitsVal (natChars n) = n := by
  induction n using Nat.strong_induction_on with
  | _ n ih =>
    rw [natChars]
    by_cases h : n < 10
    · rw [if_pos h]
      have hv : (Char.ofNat (48 + n)).toNat = 48 + n :=
        (digit_facts ⟨n, h⟩).2.2.2.1
      simp only [digitsVal, List.foldl_cons, List.foldl_nil]
      omega
    · rw [if_neg h]
      rw [digitsVal_append_digit,
        ih (n / 10) (Nat.div_lt_self (by omega) (by omega))]
      have hv : (Char.ofNat (48 + n % 10)).toNat = 48 + n % 10 :=
        (digit_facts ⟨n % 10, Nat.mod_lt _ (by omega)⟩).2.2.2.1
      omega

theorem skipWs_cons_of_not (c : Char) (l : List Char) (h : isWsJson c = false) :
    skipWs (c :: l) = c :: l := by
  simp [skipWs, List.dropWhile_cons, h]


theorem takeWhile_digits_append (ds rest : List Char)
    (hd : ∀ c ∈ ds, isDigitChar c = true)
    (hr : ∀ c, rest.head? = some c → isDigitChar c = false) :
    (ds ++ rest).takeWhile isDigitChar = ds ∧
      (ds ++ rest).dropWhile isDigitChar = rest := by
  induction ds with
  | nil =>
    cases rest with
    | nil => simp
    | cons c t =>
      simp [List.takeWhile_cons, List.dropWhile_cons, hr c rfl]
  | cons d ds' ih =>
    have hdd := hd d (by simp)
    have := ih (fun c hc => hd c (by simp [hc]))
    simp [List.takeWhile_cons, List.dropWhile_cons, hdd, this.1, this.2]

theorem natChars_all_digits (n : Nat) :
    ∀ c ∈ natChars n, isDigitChar c = true := by
  intro c hc
  obtain ⟨k, hk⟩ := (natChars_shape n).2 c hc
  subst hk
  exact (digit_facts k).1

theorem parseNum_intChars (m : Int) (rest : List Char)
    (hr : ∀ c, rest.head? = some c → isDigitChar c = false) :
    parseNum (intChars m ++ rest) = some (m, rest) := by
  obtain ⟨d, ds', hshape⟩ := (natChars_shape m.natAbs).1
  have hdig : isDigitChar d = true := by
    apply natChars_all_digits m.natAbs
    rw [hshape]; simp
  obtain ⟨k, hk⟩ := (natChars_shape m.natAbs).2 d (by rw [hshape]; simp)
  have hfacts := digit_facts k
  rw [intChars]
  by_cases hm : m < 0
  · rw [if_pos hm]
    have htd := takeWhile_digits_append (natChars m.natAbs) rest
      (natChars_all_digits m.natAbs) hr
    show parseNum ('-' :: (natChars m.natAbs ++ rest)) = some (m, rest)
    rw [parseNum]
    rw [if_pos rfl]
    simp only [htd.1, htd.2]
    rw [if_neg (by rw [hshape]; simp)]
    rw [digitsVal_natChars]
    have : ((m.natAbs : Int)) = -m := by omega
    rw [this]
    simp
  · rw [if_neg hm]
    rw [hshape]
    show parseNum (d :: (ds' ++ rest)) = some (m, rest)
    rw [parseNum]
    rw [if_neg (by rw [← hk] at hfacts; exact hfacts.2.2.2.2.2.2.2.2.2.2.2.2.2.2.2.1)]
    have hcons : d :: (ds' ++ rest) = natChars m.natAbs ++ rest := by
      rw [hshape]; rfl
    rw [hcons]
    have htd := takeWhile_digits_append (natChars m.natAbs) rest
      (natChars_all_digits m.natAbs) hr
    simp only [htd.1, htd.2]
    rw [if_neg (by rw [hshape]; simp)]
    rw [digitsVal_natChars]
    have : ((m.natAbs : Int)) = m := by omega
    rw [this]

theorem parseStringBody_escape (l : List Char) (rest : List Char)
    (h : ∀ c ∈ l, safeChar c = true) :
    parseStringBody (l.flatMap escChar ++ ('"' :: rest)) = some (l, rest) := by
  induction l with
  | nil =>
    show parseStringBody ('"' :: rest) = some ([], rest)
    rw [parseStringBody.eq_def]
    simp
  | cons c t ih =>
    have iht := ih (fun x hx => h x (by simp [hx]))
    by_cases h1 : c = '"'
    · subst h1
      have hstep : ('"' :: t).flatMap escChar ++ ('"' :: rest) =
          '\\' :: '"' :: (t.flatMap escChar ++ ('"' :: rest)) := by
        simp [escChar]
      rw [hstep, parseStringBody.eq_def]
      simp [escDecode, iht]
    · by_cases h2 : c = '\\'
      · subst h2
        have hstep : ('\\' :: t).flatMap escChar ++ ('"' :: rest) =
            '\\' :: '\\' :: (t.flatMap escChar ++ ('"' :: rest)) := by
          simp [escChar]
        rw [hstep, parseStringBody.eq_def]
        simp [escDecode, iht]
      · have hc := h c (by simp)
        have hge : ¬(c.toNat < 32) := by
          simp only [safeChar, Bool.and_eq_true, decide_eq_true_eq] at hc
          omega
        have hstep : (c :: t).flatMap escChar ++ ('"' :: rest) =
            c :: (t.flatMap escChar ++ ('"' :: rest)) := by
          simp [escChar, h1, h2]
        rw [hstep, parseStringBody.eq_def]
        simp [h1, h2, hge, iht]

theorem dumpsF_head (tA tO : Bool) (v : Json) (hwf : wfJson v = true) :
    ∃ c cs', dumpsF tA tO v = c :: cs' ∧ isWsJson c = false ∧
      isWsChar c = false ∧ c ≠ ']' ∧ c ≠ '\x7d' ∧ c ≠ ',' := by
  cases v with
  | null => exact ⟨'n', _, rfl, by decide, by decide, by decide, by decide, by decide⟩
  | bool b =>
    cases b
    · exact ⟨'f', _, rfl, by decide, by decide, by decide, by decide, by decide⟩
    · exact ⟨'t', _, rfl, by decide, by decide, by decide, by decide, by decide⟩
  | num m =>
    show ∃ c cs', intChars m = c :: cs' ∧ _
    rw [intChars]
    by_cases hm : m < 0
    · rw [if_pos hm]
      exact ⟨'-', _, rfl, by decide, by decide, by decide, by decide, by decide⟩
    · rw [if_neg hm]
      obtain ⟨d, ds', hshape⟩ := (natChars_shape m.natAbs).1
      obtain ⟨k, hk⟩ := (natChars_shape m.natAbs).2 d (by rw [hshape]; simp)
      have hf := digit_facts k
      rw [← hk] at hf
      exact ⟨d, ds', hshape, hf.2.1, hf.2.2.1, hf.2.2.2.2.1, hf.2.2.2.2.2.1,
        hf.2.2.2.2.2.2.1⟩
  | fnum q => exact absurd hwf (by simp [wfJson])
  | str s => exact ⟨'"', _, rfl, by decide, by decide, by decide, by decide, by decide⟩
  | arr xs =>
    cases xs
    · exact ⟨'[', _, rfl, by decide, by decide, by decide, by decide, by decide⟩
    · exact ⟨'[', _, rfl, by decide, by decide, by decide, by decide, by decide⟩
  | obj kvs =>
    cases kvs
    · exact ⟨'\x7b', _, rfl, by decide, by decide, by decide, by decide, by decide⟩
    · exact ⟨'\x7b', _, rfl, by decide, by decide, by decide, by decide, by decide⟩

theorem dumpsF_last (tA tO : Bool) (v : Json) (hwf : wfJson v = true) :
    ∃ c, (dumpsF tA tO v).getLast? = some c ∧ c ≠ ',' ∧ isWsChar c = false := by
  cases v with
  | null => exact ⟨'l', rfl, by decide, by decide⟩
  | bool b =>
    cases b
    · exact ⟨'e', rfl, by decide, by decide⟩
    · exact ⟨'e', rfl, by decide, by decide⟩
  | num m =>
    show ∃ c, (intChars m).getLast? = some c ∧ _
    obtain ⟨d, ds', hshape⟩ := (natChars_shape m.natAbs).1
    have hmem : (natChars m.natAbs).getLast (by rw [hshape]; simp) ∈
        natChars m.natAbs := List.getLast_mem _
    obtain ⟨k, hk⟩ := (natChars_shape m.natAbs).2 _ hmem
    have hf := digit_facts k
    rw [← hk] at hf
    have hlast : (natChars m.natAbs).getLast? =
        some ((natChars m.natAbs).getLast (by rw [hshape]; simp)) :=
      List.getLast?_eq_getLast _ _
    rw [intChars]
    by_cases hm : m < 0
    · rw [if_pos hm]
      refine ⟨_, ?_, hf.2.2.2.2.2.2.1, hf.2.2.1⟩
      rw [List.getLast?_cons, hlast]
      simp [Option.getD]
    · rw [if_neg hm]
      exact ⟨_, hlast, hf.2.2.2.2.2.2.1, hf.2.2.1⟩
  | fnum q => exact absurd hwf (by simp [wfJson])
  | str s =>
    refine ⟨'"', ?_, by decide, by decide⟩
    show ('"' :: (escapeStr s ++ ['"'])).getLast? = some '"'
    rw [show '"' :: (escapeStr s ++ ['"']) = ('"' :: escapeStr s) ++ ['"'] by simp]
    exact List.getLast?_concat _
  | arr xs =>
    cases xs with
    | nil => exact ⟨']', rfl, by decide, by decide⟩
    | cons x tl =>
      refine ⟨']', ?_, by decide, by decide⟩
      show ('[' :: (dumpsF tA tO x ++ dumpsRestF tA tO tl ++
        (if tA then [','] else []) ++ [']'])).getLast? = some ']'
      rw [show ('[' :: (dumpsF tA tO x ++ dumpsRestF tA tO tl ++
        (if tA then [','] else []) ++ [']'])) =
        ('[' :: (dumpsF tA tO x ++ dumpsRestF tA tO tl ++
          (if tA then [','] else []))) ++ [']'] by simp]
      exact List.getLast?_concat _
  | obj kvs =>
    cases kvs with
    | nil => exact ⟨'\x7d', rfl, by decide, by decide⟩
    | cons k v tl =>
      refine ⟨'\x7d', ?_, by decide, by decide⟩
      show ('\x7b' :: ('"' :: (escapeStr k ++ ['"']) ++ ':' :: dumpsF tA tO v ++
        dumpsMemF tA tO tl ++ (if tO then [','] else []) ++ ['\x7d'])).getLast? =
        some '\x7d'
      rw [show ('\x7b' :: ('"' :: (escapeStr k ++ ['"']) ++ ':' :: dumpsF tA tO v ++
        dumpsMemF tA tO tl ++ (if tO then [','] else []) ++ ['\x7d'])) =
        ('\x7b' :: ('"' :: (escapeStr k ++ ['"']) ++ ':' :: dumpsF tA tO v ++
          dumpsMemF tA tO tl ++ (if tO then [','] else []))) ++ ['\x7d'] by simp]
      exact List.getLast?_concat _


theorem safeStr_all (s : String) (h : safeStr s = true) :
    ∀ c ∈ s.data, safeChar c = true := by
  simp only [safeStr, Bool.and_eq_true, List.all_eq_true] at h
  exact h.1.1

theorem restOk_not_digit (rest : List Char) (h : restOk rest) :
    ∀ c, rest.head? = some c → isDigitChar c = false := by
  intro c hc
  rcases h with h | h | h | h
  · rw [h] at hc; cases hc
  all_goals (rw [h] at hc; cases hc; decide)

theorem restOk_skipWs (rest : List Char) (h : restOk rest) :
    skipWs rest = rest := by
  rcases h with h | h | h | h
  · rw [h]; rfl
  all_goals
    (cases rest with
     | nil => cases h
     | cons c t =>
       cases h
       exact skipWs_cons_of_not _ _ (by decide))

theorem string_mk_data (s : String) : String.mk s.data = s := rfl

theorem parseValue_quote (n : Nat) (l : List Char) :
    parseValue (n + 1) ('"' :: l) =
      match parseStringBody l with
      | some (s, r) => some (Json.str (String.mk s), r)
      | none => none := rfl

theorem parseValue_lbracket (n : Nat) (l : List Char) :
    parseValue (n + 1) ('[' :: l) =
      (if (skipWs l).head? = some ']' then
        some (Json.arr JsonList.nil, (skipWs l).tail)
      else
        match parseElems n (skipWs l) with
        | some (xs, r) => some (Json.arr xs, r)
        | none => none) := rfl

theorem parseValue_lbrace (n : Nat) (l : List Char) :
    parseValue (n + 1) ('\x7b' :: l) =
      (if (skipWs l).head? = some '\x7d' then
        some (Json.obj JsonMembers.nil, (skipWs l).tail)
      else
        match parseMembers n (skipWs l) with
        | some (kvs, r) => some (Json.obj kvs, r)
        | none => none) := rfl

theorem parseValue_other (n : Nat) (c : Char) (l : List Char)
    (h0 : isWsJson c = false) (h1 : c ≠ '"') (h2 : c ≠ '[')
    (h3 : c ≠ '\x7b') (h4 : c ≠ 't') (h5 : c ≠ 'f') (h6 : c ≠ 'n') :
    parseValue (n + 1) (c :: l) =
      match parseNum (c :: l) with
      | some (m, r) => some (Json.num m, r)
      | none => none := by
  simp only [parseValue.eq_def, skipWs_cons_of_not _ _ h0]
  simp [h1, h2, h3, h4, h5, h6]

theorem parseElems_succ (n : Nat) (cs : List Char) :
    parseElems (n + 1) cs =
      (match parseValue n cs with
       | none => none
       | some (v, r) =>
         if (skipWs r).head? = some ',' then
           match parseElems n (skipWs r).tail with
           | some (xs, r3) => some (JsonList.cons v xs, r3)
           | none => none
         else if (skipWs r).head? = some ']' then
           some (JsonList.cons v JsonList.nil, (skipWs r).tail)
         else none) := rfl

theorem parseMembers_quote (n : Nat) (l : List Char) :
    parseMembers (n + 1) ('"' :: l) =
      (match parseStringBody l with
       | none => none
       | some (k, r) =>
         if (skipWs r).head? = some ':' then
           match parseValue n (skipWs r).tail with
           | none => none
           | some (v, r3) =>
             if (skipWs r3).head? = some ',' then
               match parseMembers n (skipWs r3).tail with
               | some (kvs, r5) => some (JsonMembers.cons (String.mk k) v kvs, r5)
               | none => none
             else if (skipWs r3).head? = some '\x7d' then
               some (JsonMembers.cons (String.mk k) v JsonMembers.nil, (skipWs r3).tail)
             else none
         else none) := rfl

theorem wfList_cons_parts (x : Json) (tl : JsonList)
    (h : wfList (JsonList.cons x tl) = true) :
    wfJson x = true ∧ wfList tl = true := by
  simp only [wfList, Bool.and_eq_true] at h
  exact h

theorem wfMembers_cons_parts (k : String) (v : Json) (tl : JsonMembers)
    (h : wfMembers (JsonMembers.cons k v tl) = true) :
    safeStr k = true ∧ wfJson v = true ∧ wfMembers tl = true := by
  simp only [wfMembers, Bool.and_eq_true] at h
  exact ⟨h.1.1.1, h.1.1.2, h.2⟩

mutual
/-- Parsing the clean serialization of a wellformed value with enough
fuel consumes exactly it. -/
theorem parse_dumps_v : ∀ (v : Json) (n : Nat) (rest : List Char),
    wfJson v = true → needV v ≤ n → restOk rest →
    parseValue n (dumpsF false false v ++ rest) = some (v, rest)
  | Json.null, n, rest => by
    intro _ hn _
    have h1 : 1 ≤ n := hn
    obtain ⟨m, rfl⟩ : ∃ m, n = m + 1 := ⟨n - 1, by omega⟩
    rfl
  | Json.bool true, n, rest => by
    intro _ hn _
    have h1 : 1 ≤ n := hn
    obtain ⟨m, rfl⟩ : ∃ m, n = m + 1 := ⟨n - 1, by omega⟩
    rfl
  | Json.bool false, n, rest => by
    intro _ hn _
    have h1 : 1 ≤ n := hn
    obtain ⟨m, rfl⟩ : ∃ m, n = m + 1 := ⟨n - 1, by omega⟩
    rfl
  | Json.num k, n, rest => by
    intro _ hn hrest
    have h1 : 1 ≤ n := hn
    obtain ⟨m, rfl⟩ : ∃ m, n = m + 1 := ⟨n - 1, by omega⟩
    have hnum := parseNum_intChars k rest (restOk_not_digit rest hrest)
    show parseValue (m + 1) (intChars k ++ rest) = some (Json.num k, rest)
    rw [intChars] at hnum ⊢
    by_cases hm : k < 0
    · rw [if_pos hm] at hnum ⊢
      rw [List.cons_append] at hnum ⊢
      rw [parseValue_other m '-' _ (by decide) (by decide) (by decide)
        (by decide) (by decide) (by decide) (by decide)]
      rw [hnum]
    · rw [if_neg hm] at hnum ⊢
      obtain ⟨d, ds', hshape⟩ := (natChars_shape k.natAbs).1
      obtain ⟨kk, hk⟩ := (natChars_shape k.natAbs).2 d (by rw [hshape]; simp)
      have hf := digit_facts kk
      rw [← hk] at hf
      obtain ⟨_, hws, _, _, _, _, _, hq, hlb, hob, ht2, hfc, hnc, _, _, _, _⟩ := hf
      rw [hshape] at hnum ⊢
      rw [List.cons_append] at hnum ⊢
      rw [parseValue_other m d _ hws hq hlb hob ht2 hfc hnc]
      rw [hnum]
  | Json.fnum q, n, rest => by
    intro hwf _ _
    exact absurd hwf (by simp [wfJson])
  | Json.str s, n, rest => by
    intro hwf hn hrest
    have h1 : 1 ≤ n := hn
    obtain ⟨m, rfl⟩ : ∃ m, n = m + 1 := ⟨n - 1, by omega⟩
    show parseValue (m + 1) (('"' :: (escapeStr s ++ ['"'])) ++ rest) =
      some (Json.str s, rest)
    rw [show ('"' :: (escapeStr s ++ ['"'])) ++ rest =
      '"' :: (s.data.flatMap escChar ++ ('"' :: rest)) by simp [escapeStr]]
    rw [parseValue_quote]
    rw [parseStringBody_escape s.data rest
      (safeStr_all s (by simpa [wfJson] using hwf))]
  | Json.arr JsonList.nil, n, rest => by
    intro _ hn hrest
    have h1 : 1 ≤ n := hn
    obtain ⟨m, rfl⟩ : ∃ m, n = m + 1 := ⟨n - 1, by omega⟩
    show parseValue (m + 1) ('[' :: (']' :: rest)) =
      some (Json.arr JsonList.nil, rest)
    rw [parseValue_lbracket]
    rw [skipWs_cons_of_not _ _ (by decide : isWsJson ']' = false)]
    simp
  | Json.arr (JsonList.cons x tl), n, rest => by
    intro hwf hn hrest
    have h1 : 1 + needL (JsonList.cons x tl) ≤ n := hn
    obtain ⟨m, rfl⟩ : ∃ m, n = m + 1 := ⟨n - 1, by omega⟩
    obtain ⟨hwx, hwtl⟩ := wfList_cons_parts x tl hwf
    have hneed : needL (JsonList.cons x tl) ≤ m := by omega
    show parseValue (m + 1)
      (('[' :: (dumpsF false false x ++ dumpsRestF false false tl ++
        (if false then [','] else []) ++ [']'])) ++ rest) = _
    rw [show ('[' :: (dumpsF false false x ++ dumpsRestF false false tl ++
        (if false then [','] else []) ++ [']'])) ++ rest =
      '[' :: (dumpsF false false x ++ (dumpsRestF false false tl ++
        (']' :: rest))) by simp]
    rw [parseValue_lbracket]
    obtain ⟨c, cs', hshape, hcws, _, hcrb, _, _⟩ := dumpsF_head false false x hwx
    rw [show dumpsF false false x ++ (dumpsRestF false false tl ++ (']' :: rest)) =
      c :: (cs' ++ (dumpsRestF false false tl ++ (']' :: rest))) by
        rw [hshape]; simp]
    rw [skipWs_cons_of_not _ _ hcws]
    rw [List.head?_cons]
    rw [if_neg (by simp [hcrb])]
    rw [show c :: (cs' ++ (dumpsRestF false false tl ++ (']' :: rest))) =
      dumpsF false false x ++ (dumpsRestF false false tl ++ (']' :: rest)) by
        rw [hshape]; simp]
    rw [parse_dumps_e x tl m rest hwx hwtl hneed hrest]
  | Json.obj JsonMembers.nil, n, rest => by
    intro _ hn hrest
    have h1 : 1 ≤ n := hn
    obtain ⟨m, rfl⟩ : ∃ m, n = m + 1 := ⟨n - 1, by omega⟩
    show parseValue (m + 1) ('\x7b' :: ('\x7d' :: rest)) =
      some (Json.obj JsonMembers.nil, rest)
    rw [parseValue_lbrace]
    rw [skipWs_cons_of_not _ _ (by decide : isWsJson '\x7d' = false)]
    simp
  | Json.obj (JsonMembers.cons k v tl), n, rest => by
    intro hwf hn hrest
    have h1 : 1 + needM (JsonMembers.cons k v tl) ≤ n := hn
    obtain ⟨m, rfl⟩ : ∃ m, n = m + 1 := ⟨n - 1, by omega⟩
    obtain ⟨hsk, hwv, hwtl⟩ := wfMembers_cons_parts k v tl hwf
    have hneed : needM (JsonMembers.cons k v tl) ≤ m := by omega
    show parseValue (m + 1)
      (('\x7b' :: ('"' :: (escapeStr k ++ ['"']) ++ ':' :: dumpsF false false v ++
        dumpsMemF false false tl ++ (if false then [','] else []) ++
        ['\x7d'])) ++ rest) = _
    rw [show ('\x7b' :: ('"' :: (escapeStr k ++ ['"']) ++ ':' :: dumpsF false false v ++
        dumpsMemF false false tl ++ (if false then [','] else []) ++
        ['\x7d'])) ++ rest =
      '\x7b' :: ('"' :: (escapeStr k ++ ('"' :: (':' :: (dumpsF false false v ++
        (dumpsMemF false false tl ++ ('\x7d' :: rest))))))) by simp]
    rw [parseValue_lbrace]
    rw [skipWs_cons_of_not _ _ (by decide : isWsJson '"' = false)]
    rw [List.head?_cons]
    rw [if_neg (by decide : ¬(some '"' = some '\x7d'))]
    rw [parse_dumps_m k v tl m rest hsk hwv hwtl hneed hrest]
termination_by v _ _ => sizeOf v
decreasing_by all_goals (simp_wf; try omega)

theorem parse_dumps_e : ∀ (x : Json) (tl : JsonList) (n : Nat) (rest : List Char),
    wfJson x = true → wfList tl = true →
    needL (JsonList.cons x tl) ≤ n → restOk rest →
    parseElems n (dumpsF false false x ++ (dumpsRestF false false tl ++
      (']' :: rest))) = some (JsonList.cons x tl, rest)
  | x, tl, n, rest => by
    intro hwx hwtl hn hrest
    have h1 : 1 + max (needV x) (needL tl) ≤ n := hn
    obtain ⟨m, rfl⟩ : ∃ m, n = m + 1 := ⟨n - 1, by omega⟩
    have hnx : needV x ≤ m := by omega
    have hntl : needL tl ≤ m := by omega
    rw [parseElems_succ]
    have hro : restOk (dumpsRestF false false tl ++ (']' :: rest)) := by
      cases tl with
      | nil => exact Or.inr (Or.inr (Or.inl rfl))
      | cons y tl' => exact Or.inr (Or.inl rfl)
    simp only [parse_dumps_v x m _ hwx hnx hro]
    cases tl with
    | nil =>
      simp [dumpsRestF, skipWs, isWsJson, List.dropWhile_cons]
    | cons y tl' =>
      obtain ⟨hwy, hwtl'⟩ := wfList_cons_parts y tl' hwtl
      have hrec := parse_dumps_e y tl' m rest hwy hwtl' hntl hrest
      simp only [dumpsRestF, List.cons_append, List.append_assoc] at hrec ⊢
      rw [skipWs_cons_of_not _ _ (by decide : isWsJson ',' = false)]
      simp [hrec]
termination_by x tl _ _ => 1 + sizeOf x + sizeOf tl
decreasing_by all_goals (simp_wf; try omega)

theorem parse_dumps_m : ∀ (k : String) (v : Json) (tl : JsonMembers) (n : Nat)
    (rest : List Char),
    safeStr k = true → wfJson v = true → wfMembers tl = true →
    needM (JsonMembers.cons k v tl) ≤ n → restOk rest →
    parseMembers n ('"' :: (escapeStr k ++ ('"' :: (':' :: (dumpsF false false v ++
      (dumpsMemF false false tl ++ ('\x7d' :: rest))))))) =
      some (JsonMembers.cons k v tl, rest)
  | k, v, tl, n, rest => by
    intro hsk hwv hwtl hn hrest
    have h1 : 1 + max (needV v) (needM tl) ≤ n := hn
    obtain ⟨m, rfl⟩ : ∃ m, n = m + 1 := ⟨n - 1, by omega⟩
    have hnv : needV v ≤ m := by omega
    have hntl : needM tl ≤ m := by omega
    rw [parseMembers_quote]
    have hsb := parseStringBody_escape k.data
      ((':' : Char) :: (dumpsF false false v ++ (dumpsMemF false false tl ++
        ('\x7d' :: rest)))) (safeStr_all k hsk)
    rw [show escapeStr k ++ ('"' :: (':' :: (dumpsF false false v ++
      (dumpsMemF false false tl ++ ('\x7d' :: rest))))) =
      k.data.flatMap escChar ++ ('"' :: ((':' : Char) :: (dumpsF false false v ++
      (dumpsMemF false false tl ++ ('\x7d' :: rest))))) from rfl]
    simp only [hsb]
    rw [skipWs_cons_of_not _ _ (by decide : isWsJson ':' = false)]
    simp only [List.head?_cons, List.tail_cons, string_mk_data, reduceIte]
    have hro : restOk (dumpsMemF false false tl ++ ('\x7d' :: rest)) := by
      cases tl with
      | nil => exact Or.inr (Or.inr (Or.inr rfl))
      | cons k2 v2 tl2 => exact Or.inr (Or.inl rfl)
    simp only [parse_dumps_v v m _ hwv hnv hro]
    cases tl with
    | nil =>
      simp [dumpsMemF, skipWs, isWsJson, List.dropWhile_cons]
    | cons k2 v2 tl2 =>
      obtain ⟨hsk2, hwv2, hwtl2⟩ := wfMembers_cons_parts k2 v2 tl2 hwtl
      have hrec := parse_dumps_m k2 v2 tl2 m rest hsk2 hwv2 hwtl2 hntl hrest
      simp only [dumpsMemF, List.cons_append, List.append_assoc,
        List.singleton_append] at hrec ⊢
      rw [skipWs_cons_of_not _ _ (by decide : isWsJson ',' = false)]
      simp [hrec]
termination_by _ v tl _ _ => 1 + sizeOf v + sizeOf tl
decreasing_by all_goals (simp_wf; try omega)
end

mutual
/-- The fuel bound `needV` is at most the serialization length. -/
theorem needV_le_len : ∀ (tA tO : Bool) (v : Json), wfJson v = true →
    needV v ≤ (dumpsF tA tO v).length
  | _, _, Json.null, _ => by simp [needV, dumpsF]
  | _, _, Json.bool true, _ => by simp [needV, dumpsF]
  | _, _, Json.bool false, _ => by simp [needV, dumpsF]
  | tA, tO, Json.num k, _ => by
    obtain ⟨d, ds', hshape⟩ := (natChars_shape k.natAbs).1
    show needV (Json.num k) ≤ (intChars k).length
    rw [intChars]
    by_cases hm : k < 0
    · rw [if_pos hm, hshape]
      simp [needV]
    · rw [if_neg hm, hshape]
      simp [needV]
  | _, _, Json.fnum q, hwf => absurd hwf (by simp [wfJson])
  | _, _, Json.str s, _ => by
    show needV (Json.str s) ≤ ('"' :: (escapeStr s ++ ['"'])).length
    simp [needV]
  | _, _, Json.arr JsonList.nil, _ => by simp [needV, dumpsF]
  | tA, tO, Json.arr (JsonList.cons x tl), hwf => by
    obtain ⟨hwx, hwtl⟩ := wfList_cons_parts x tl hwf
    have h1 := needV_le_len tA tO x hwx
    have h2 := needL_le_len tA tO tl hwtl
    show 1 + needL (JsonList.cons x tl) ≤
      ('[' :: (dumpsF tA tO x ++ dumpsRestF tA tO tl ++
        (if tA then [','] else []) ++ [']'])).length
    have h3 : needL (JsonList.cons x tl) = 1 + max (needV x) (needL tl) := rfl
    have h4 : max (needV x) (needL tl) ≤
        (dumpsF tA tO x).length + (dumpsRestF tA tO tl).length :=
      max_le (by omega) (by omega)
    simp only [List.length_cons, List.length_append]
    omega
  | _, _, Json.obj JsonMembers.nil, _ => by simp [needV, dumpsF]
  | tA, tO, Json.obj (JsonMembers.cons k v tl), hwf => by
    obtain ⟨hsk, hwv, hwtl⟩ := wfMembers_cons_parts k v tl hwf
    have h1 := needV_le_len tA tO v hwv
    have h2 := needM_le_len tA tO tl hwtl
    show 1 + needM (JsonMembers.cons k v tl) ≤
      ('\x7b' :: ('"' :: (escapeStr k ++ ['"']) ++ ':' :: dumpsF tA tO v ++
        dumpsMemF tA tO tl ++ (if tO then [','] else []) ++ ['\x7d'])).length
    have h3 : needM (JsonMembers.cons k v tl) = 1 + max (needV v) (needM tl) := rfl
    have h4 : max (needV v) (needM tl) ≤
        (dumpsF tA tO v).length + (dumpsMemF tA tO tl).length :=
      max_le (by omega) (by omega)
    simp only [List.length_cons, List.length_append]
    omega

theorem needL_le_len : ∀ (tA tO : Bool) (xs : JsonList), wfList xs = true →
    needL xs ≤ (dumpsRestF tA tO xs).length
  | _, _, JsonList.nil, _ => by simp [needL, dumpsRestF]
  | tA, tO, JsonList.cons y tl', hwf => by
    obtain ⟨hwy, hwtl'⟩ := wfList_cons_parts y tl' hwf
    have h1 := needV_le_len tA tO y hwy
    have h2 := needL_le_len tA tO tl' hwtl'
    show 1 + max (needV y) (needL tl') ≤
      (',' :: (dumpsF tA tO y ++ dumpsRestF tA tO tl')).length
    have h4 : max (needV y) (needL tl') ≤
        (dumpsF tA tO y).length + (dumpsRestF tA tO tl').length :=
      max_le (by omega) (by omega)
    simp only [List.length_cons, List.length_append]
    omega

theorem needM_le_len : ∀ (tA tO : Bool) (kvs : JsonMembers), wfMembers kvs = true →
    needM kvs ≤ (dumpsMemF tA tO kvs).length
  | _, _, JsonMembers.nil, _ => by simp [needM, dumpsMemF]
  | tA, tO, JsonMembers.cons k v tl, hwf => by
    obtain ⟨hsk, hwv, hwtl⟩ := wfMembers_cons_parts k v tl hwf
    have h1 := needV_le_len tA tO v hwv
    have h2 := needM_le_len tA tO tl hwtl
    show 1 + max (needV v) (needM tl) ≤
      (',' :: ('"' :: (escapeStr k ++ ['"']) ++ ':' :: dumpsF tA tO v ++
        dumpsMemF tA tO tl)).length
    have h4 : max (needV v) (needM tl) ≤
        (dumpsF tA tO v).length + (dumpsMemF tA tO tl).length :=
      max_le (by omega) (by omega)
    simp only [List.length_cons, List.length_append]
    omega
end

/-- `json.loads` inverts `json.dumps` on wellformed values. -/
theorem json_loads_dumps (v : Json) (hwf : wfJson v = true) :
    json_loads (dumps v) = some v := by
  have hlen := needV_le_len false false v hwf
  have h := parse_dumps_v v ((dumps v).length + 1) [] hwf
    (le_trans hlen (Nat.le_succ _)) (Or.inl rfl)
  rw [List.append_nil] at h
  simp only [dumps] at h ⊢
  simp [json_loads, h, skipWs]

theorem parseValue_rbracket_none : ∀ (n : Nat) (l : List Char),
    parseValue n (']' :: l) = none := by
  intro n l
  cases n with
  | zero => rfl
  | succ m => rfl

theorem parseMembers_rbrace_none : ∀ (n : Nat) (l : List Char),
    parseMembers n ('\x7d' :: l) = none := by
  intro n l
  cases n with
  | zero => rfl
  | succ m => rfl

theorem parseElems_rbracket_none : ∀ (n : Nat) (l : List Char),
    parseElems n (']' :: l) = none := by
  intro n l
  cases n with
  | zero => rfl
  | succ m =>
    rw [parseElems_succ, parseValue_rbracket_none]

mutual
/-- Parsing the trailing-comma serialization fails exactly when the
value is a nonempty array or object. -/
theorem parseT_v : ∀ (v : Json) (n : Nat) (rest : List Char),
    wfJson v = true → needV v ≤ n → restOk rest →
    parseValue n (dumpsF true true v ++ rest) =
      (if hasTC v then none else some (v, rest))
  | Json.null, n, rest => fun hwf hn hrest =>
    parse_dumps_v Json.null n rest hwf hn hrest
  | Json.bool true, n, rest => fun hwf hn hrest =>
    parse_dumps_v (Json.bool true) n rest hwf hn hrest
  | Json.bool false, n, rest => fun hwf hn hrest =>
    parse_dumps_v (Json.bool false) n rest hwf hn hrest
  | Json.num k, n, rest => fun hwf hn hrest =>
    parse_dumps_v (Json.num k) n rest hwf hn hrest
  | Json.fnum q, n, rest => fun hwf _ _ =>
    absurd hwf (by simp [wfJson])
  | Json.str s, n, rest => fun hwf hn hrest =>
    parse_dumps_v (Json.str s) n rest hwf hn hrest
  | Json.arr JsonList.nil, n, rest => fun hwf hn hrest =>
    parse_dumps_v (Json.arr JsonList.nil) n rest hwf hn hrest
  | Json.obj JsonMembers.nil, n, rest => fun hwf hn hrest =>
    parse_dumps_v (Json.obj JsonMembers.nil) n rest hwf hn hrest
  | Json.arr (JsonList.cons x tl), n, rest => by
    intro hwf hn _
    have h1 : 1 + needL (JsonList.cons x tl) ≤ n := hn
    obtain ⟨m, rfl⟩ : ∃ m, n = m + 1 := ⟨n - 1, by omega⟩
    obtain ⟨hwx, hwtl⟩ := wfList_cons_parts x tl hwf
    have hneed : needL (JsonList.cons x tl) ≤ m := by omega
    show parseValue (m + 1)
      (('[' :: (dumpsF true true x ++ dumpsRestF true true tl ++
        (if true then [','] else []) ++ [']'])) ++ rest) = none
    rw [show ('[' :: (dumpsF true true x ++ dumpsRestF true true tl ++
        (if true then [','] else []) ++ [']'])) ++ rest =
      '[' :: (dumpsF true true x ++ (dumpsRestF true true tl ++
        (',' :: (']' :: rest)))) by simp]
    rw [parseValue_lbracket]
    obtain ⟨c, cs', hshape, hcws, _, hcrb, _, _⟩ := dumpsF_head true true x hwx
    rw [show dumpsF true true x ++ (dumpsRestF true true tl ++ (',' :: (']' :: rest))) =
      c :: (cs' ++ (dumpsRestF true true tl ++ (',' :: (']' :: rest)))) by
        rw [hshape]; simp]
    rw [skipWs_cons_of_not _ _ hcws]
    rw [List.head?_cons]
    rw [if_neg (by simp [hcrb])]
    rw [show c :: (cs' ++ (dumpsRestF true true tl ++ (',' :: (']' :: rest)))) =
      dumpsF true true x ++ (dumpsRestF true true tl ++ (',' :: (']' :: rest))) by
        rw [hshape]; simp]
    rw [parseT_e x tl m rest hwx hwtl hneed]
  | Json.obj (JsonMembers.cons k v tl), n, rest => by
    intro hwf hn _
    have h1 : 1 + needM (JsonMembers.cons k v tl) ≤ n := hn
    obtain ⟨m, rfl⟩ : ∃ m, n = m + 1 := ⟨n - 1, by omega⟩
    obtain ⟨hsk, hwv, hwtl⟩ := wfMembers_cons_parts k v tl hwf
    have hneed : needM (JsonMembers.cons k v tl) ≤ m := by omega
    show parseValue (m + 1)
      (('\x7b' :: ('"' :: (escapeStr k ++ ['"']) ++ ':' :: dumpsF true true v ++
        dumpsMemF true true tl ++ (if true then [','] else []) ++
        ['\x7d'])) ++ rest) = none
    rw [show ('\x7b' :: ('"' :: (escapeStr k ++ ['"']) ++ ':' :: dumpsF true true v ++
        dumpsMemF true true tl ++ (if true then [','] else []) ++
        ['\x7d'])) ++ rest =
      '\x7b' :: ('"' :: (escapeStr k ++ ('"' :: (':' :: (dumpsF true true v ++
        (dumpsMemF true true tl ++ (',' :: ('\x7d' :: rest)))))))) by simp]
    rw [parseValue_lbrace]
    rw [skipWs_cons_of_not _ _ (by decide : isWsJson '"' = false)]
    rw [List.head?_cons]
    rw [if_neg (by decide : ¬(some '"' = some '\x7d'))]
    rw [parseT_m k v tl m rest hsk hwv hwtl hneed]
termination_by v _ _ => sizeOf v
decreasing_by all_goals (simp_wf; try omega)

theorem parseT_e : ∀ (x : Json) (tl : JsonList) (n : Nat) (rest : List Char),
    wfJson x = true → wfList tl = true → needL (JsonList.cons x tl) ≤ n →
    parseElems n (dumpsF true true x ++ (dumpsRestF true true tl ++
      (',' :: (']' :: rest)))) = none
  | x, tl, n, rest => by
    intro hwx hwtl hn
    have h1 : 1 + max (needV x) (needL tl) ≤ n := hn
    obtain ⟨m, rfl⟩ : ∃ m, n = m + 1 := ⟨n - 1, by omega⟩
    have hnx : needV x ≤ m := by omega
    have hntl : needL tl ≤ m := by omega
    rw [parseElems_succ]
    have hro : restOk (dumpsRestF true true tl ++ (',' :: (']' :: rest))) := by
      cases tl with
      | nil => exact Or.inr (Or.inl rfl)
      | cons y tl' => exact Or.inr (Or.inl rfl)
    rw [parseT_v x m _ hwx hnx hro]
    by_cases htc : hasTC x
    · rw [if_pos htc]
    · rw [if_neg htc]
      cases tl with
      | nil =>
        simp [dumpsRestF, skipWs, isWsJson, List.dropWhile_cons,
          parseElems_rbracket_none]
      | cons y tl' =>
        obtain ⟨hwy, hwtl'⟩ := wfList_cons_parts y tl' hwtl
        have hrec := parseT_e y tl' m rest hwy hwtl' hntl
        simp only [dumpsRestF, List.cons_append, List.append_assoc] at hrec ⊢
        rw [skipWs_cons_of_not _ _ (by decide : isWsJson ',' = false)]
        simp [hrec]
termination_by x tl _ _ => 1 + sizeOf x + sizeOf tl
decreasing_by all_goals (simp_wf; try omega)

theorem parseT_m : ∀ (k : String) (v : Json) (tl : JsonMembers) (n : Nat)
    (rest : List Char),
    safeStr k = true → wfJson v = true → wfMembers tl = true →
    needM (JsonMembers.cons k v tl) ≤ n →
    parseMembers n ('"' :: (escapeStr k ++ ('"' :: (':' :: (dumpsF true true v ++
      (dumpsMemF true true tl ++ (',' :: ('\x7d' :: rest)))))))) = none
  | k, v, tl, n, rest => by
    intro hsk hwv hwtl hn
    have h1 : 1 + max (needV v) (needM tl) ≤ n := hn
    obtain ⟨m, rfl⟩ : ∃ m, n = m + 1 := ⟨n - 1, by omega⟩
    have hnv : needV v ≤ m := by omega
    have hntl : needM tl ≤ m := by omega
    rw [parseMembers_quote]
    have hsb := parseStringBody_escape k.data
      ((':' : Char) :: (dumpsF true true v ++ (dumpsMemF true true tl ++
        (',' :: ('\x7d' :: rest))))) (safeStr_all k hsk)
    rw [show escapeStr k ++ ('"' :: (':' :: (dumpsF true true v ++
      (dumpsMemF true true tl ++ (',' :: ('\x7d' :: rest)))))) =
      k.data.flatMap escChar ++ ('"' :: ((':' : Char) :: (dumpsF true true v ++
      (dumpsMemF true true tl ++ (',' :: ('\x7d' :: rest)))))) from rfl]
    simp only [hsb]
    rw [skipWs_cons_of_not _ _ (by decide : isWsJson ':' = false)]
    simp only [List.head?_cons, List.tail_cons, string_mk_data, reduceIte]
    have hro : restOk (dumpsMemF true true tl ++ (',' :: ('\x7d' :: rest))) := by
      cases tl with
      | nil => exact Or.inr (Or.inl rfl)
      | cons k2 v2 tl2 => exact Or.inr (Or.inl rfl)
    rw [parseT_v v m _ hwv hnv hro]
    by_cases htc : hasTC v
    · rw [if_pos htc]
    · rw [if_neg htc]
      cases tl with
      | nil =>
        simp [dumpsMemF, skipWs, isWsJson, List.dropWhile_cons,
          parseMembers_rbrace_none]
      | cons k2 v2 tl2 =>
        obtain ⟨hsk2, hwv2, hwtl2⟩ := wfMembers_cons_parts k2 v2 tl2 hwtl
        have hrec := parseT_m k2 v2 tl2 m rest hsk2 hwv2 hwtl2 hntl
        simp only [dumpsMemF, List.cons_append, List.append_assoc,
          List.singleton_append] at hrec ⊢
        rw [skipWs_cons_of_not _ _ (by decide : isWsJson ',' = false)]
        simp [hrec]
termination_by _ v tl _ _ => 1 + sizeOf v + sizeOf tl
decreasing_by all_goals (simp_wf; try omega)
end

/-- `json.loads` fails on the trailing-comma serialization of a
nonempty array or object. -/
theorem json_loads_dumpsT_none (v : Json) (hwf : wfJson v = true)
    (htc : hasTC v = true) : json_loads (dumpsT v) = none := by
  have hlen := needV_le_len true true v hwf
  have h := parseT_v v ((dumpsT v).length + 1) [] hwf
    (le_trans hlen (by simp [dumpsT])) (Or.inl rfl)
  rw [List.append_nil, htc, if_pos rfl] at h
  simp only [dumpsT] at h ⊢
  simp [json_loads, h]

theorem r2_cons_ne (p1 p2 r a : Char) (l : List Char) (h : a ≠ p1) :
    replace2 p1 p2 r (a :: l) = a :: replace2 p1 p2 r l := by
  cases l with
  | nil => rfl
  | cons b t => simp [replace2, h]

theorem r2_cons₂_pair (p1 p2 r : Char) (t : List Char) :
    replace2 p1 p2 r (p1 :: p2 :: t) = r :: replace2 p1 p2 r t := by
  simp [replace2]

theorem r2_cons₂_ne (p1 p2 r a b : Char) (t : List Char)
    (h : ¬(a = p1 ∧ b = p2)) :
    replace2 p1 p2 r (a :: b :: t) = a :: replace2 p1 p2 r (b :: t) := by
  simp [replace2, h]

theorem r2_append_no_p1 (p1 p2 r : Char) (pre tail : List Char)
    (h : ∀ c ∈ pre, c ≠ p1) :
    replace2 p1 p2 r (pre ++ tail) = pre ++ replace2 p1 p2 r tail := by
  induction pre with
  | nil => simp
  | cons a pre' ih =>
    rw [List.cons_append, r2_cons_ne p1 p2 r a _ (h a (by simp)),
      ih (fun c hc => h c (by simp [hc]))]
    rfl

theorem containsSub_pair_cons_false_intro (c1 c2 x : Char) (rest : List Char)
    (hx : ¬(x = c1 ∧ rest.head? = some c2))
    (hr : containsSub [c1, c2] rest = false) :
    containsSub [c1, c2] (x :: rest) = false := by
  have hpre : List.isPrefixOf [c1, c2] (x :: rest) = false := by
    cases rest with
    | nil => simp [List.isPrefixOf]
    | cons b t =>
      by_contra hcon
      rw [Bool.not_eq_false] at hcon
      have hcb : c1 = x ∧ c2 = b := by
        simpa [List.isPrefixOf, Bool.and_eq_true] using hcon
      exact hx ⟨hcb.1.symm, by rw [List.head?_cons, hcb.2]⟩
  simp [containsSub, hpre, hr]

theorem containsSub_pair_cons_false_elim (c1 c2 x : Char) (rest : List Char)
    (h : containsSub [c1, c2] (x :: rest) = false) :
    ¬(x = c1 ∧ rest.head? = some c2) ∧ containsSub [c1, c2] rest = false := by
  have hor : (List.isPrefixOf [c1, c2] (x :: rest) || containsSub [c1, c2] rest)
      = false := h
  rw [Bool.or_eq_false_iff] at hor
  refine ⟨?_, hor.2⟩
  rintro ⟨rfl, hh⟩
  cases rest with
  | nil => simp at hh
  | cons b t =>
    rw [List.head?_cons, Option.some.injEq] at hh
    subst hh
    have := hor.1
    simp [List.isPrefixOf] at this

theorem containsSub_pair_singleton (c1 c2 x : Char) :
    containsSub [c1, c2] [x] = false := by
  simp [containsSub, List.isPrefixOf]

theorem containsSub_pair_append_false (c1 c2 : Char) (X Y : List Char)
    (hX : containsSub [c1, c2] X = false) (hY : containsSub [c1, c2] Y = false)
    (hb : ∀ a, X.getLast? = some a → a = c1 → Y.head? ≠ some c2) :
    containsSub [c1, c2] (X ++ Y) = false := by
  induction X with
  | nil => simpa using hY
  | cons a X' ih =>
    obtain ⟨hnp, hX'⟩ := containsSub_pair_cons_false_elim c1 c2 a X' hX
    rw [List.cons_append]
    apply containsSub_pair_cons_false_intro
    · rintro ⟨rfl, hh⟩
      cases X' with
      | nil => exact hb a rfl rfl (by simpa using hh)
      | cons b X'' =>
        rw [List.cons_append, List.head?_cons] at hh
        exact hnp ⟨rfl, by rw [List.head?_cons, ← hh]⟩
    · refine ih hX' ?_
      intro a' hl
      apply hb a'
      cases X' with
      | nil => cases hl
      | cons b X'' => rw [List.getLast?_cons_cons]; exact hl

theorem escapeStr_no_pair (c1 c2 : Char) (h1 : c1 ≠ '"') (h1b : c1 ≠ '\\')
    (h2 : c2 ≠ '"') (h2b : c2 ≠ '\\') :
    ∀ l : List Char, containsSub [c1, c2] l = false →
      containsSub [c1, c2] (l.flatMap escChar) = false := by
  intro l
  induction l with
  | nil => intro _; simp [containsSub, List.isPrefixOf]
  | cons a t ih =>
    intro h
    obtain ⟨hnp, ht⟩ := containsSub_pair_cons_false_elim c1 c2 a t h
    have iht := ih ht
    rw [List.flatMap_cons]
    by_cases ha1 : a = '"'
    · subst ha1
      rw [show escChar '"' = ['\\', '"'] from rfl]
      rw [List.cons_append, List.cons_append]
      apply containsSub_pair_cons_false_intro
      · rintro ⟨he, _⟩; exact h1b he.symm
      · apply containsSub_pair_cons_false_intro
        · rintro ⟨he, _⟩; exact h1 he.symm
        · exact iht
    · by_cases ha2 : a = '\\'
      · subst ha2
        rw [show escChar '\\' = ['\\', '\\'] from rfl]
        rw [List.cons_append, List.cons_append]
        apply containsSub_pair_cons_false_intro
        · rintro ⟨he, _⟩; exact h1b he.symm
        · apply containsSub_pair_cons_false_intro
          · rintro ⟨he, _⟩; exact h1b he.symm
          · exact iht
      · rw [show escChar a = [a] by simp [escChar, ha1, ha2]]
        rw [List.cons_append, List.nil_append]
        apply containsSub_pair_cons_false_intro
        · rintro ⟨rfl, hh⟩
          cases t with
          | nil => simp at hh
          | cons b t' =>
            rw [List.flatMap_cons] at hh
            by_cases hb1 : b = '"'
            · subst hb1
              rw [show escChar '"' = ['\\', '"'] from rfl] at hh
              rw [List.cons_append, List.head?_cons, Option.some.injEq] at hh
              exact h2b hh.symm
            · by_cases hb2 : b = '\\'
              · subst hb2
                rw [show escChar '\\' = ['\\', '\\'] from rfl] at hh
                rw [List.cons_append, List.head?_cons, Option.some.injEq] at hh
                exact h2b hh.symm
              · rw [show escChar b = [b] by simp [escChar, hb1, hb2]] at hh
                rw [List.cons_append, List.head?_cons] at hh
                exact hnp ⟨rfl, by rw [List.head?_cons, ← hh]⟩
        · exact iht

theorem safeStr_parts (s : String) (h : safeStr s = true) :
    (∀ c ∈ s.data, safeChar c = true) ∧
      containsSub [',', '\x7d'] s.data = false ∧
      containsSub [',', ']'] s.data = false := by
  simp only [safeStr, Bool.and_eq_true, Bool.not_eq_true',
    List.all_eq_true] at h
  exact ⟨h.1.1, h.1.2, h.2⟩

theorem str_seg_pair_free (c2 : Char) (h2 : c2 ≠ '"') (h2b : c2 ≠ '\\')
    (s : String) (hp : containsSub [',', c2] s.data = false) :
    containsSub [',', c2] ('"' :: (escapeStr s ++ ['"'])) = false := by
  apply containsSub_pair_cons_false_intro
  · rintro ⟨he, _⟩; cases he
  · apply containsSub_pair_append_false
    · exact escapeStr_no_pair ',' c2 (by decide) (by decide) h2 h2b s.data hp
    · exact containsSub_pair_singleton _ _ _
    · intro a _ ha hh
      rw [List.head?_cons, Option.some.injEq] at hh
      exact h2 hh.symm

theorem str_seg_last (s : String) :
    ('"' :: (escapeStr s ++ ['"'])).getLast? = some '"' := by
  rw [show '"' :: (escapeStr s ++ ['"']) = ('"' :: escapeStr s) ++ ['"'] by simp]
  exact List.getLast?_concat _

theorem r2_append_no_pair (p1 p2 r : Char) (pre tail : List Char)
    (hpair : containsSub [p1, p2] pre = false)
    (hlast : ∀ c, pre.getLast? = some c → c ≠ p1) :
    replace2 p1 p2 r (pre ++ tail) = pre ++ replace2 p1 p2 r tail := by
  induction pre with
  | nil => simp
  | cons a pre' ih =>
    obtain ⟨hnp, hpair'⟩ := containsSub_pair_cons_false_elim p1 p2 a pre' hpair
    cases pre' with
    | nil =>
      rw [List.cons_append, List.nil_append,
        r2_cons_ne p1 p2 r a tail (hlast a rfl)]
      rfl
    | cons b pre'' =>
      have hnp2 : ¬(a = p1 ∧ b = p2) := by
        rintro ⟨ha, hb⟩
        exact hnp ⟨ha, by rw [List.head?_cons, hb]⟩
      have hlast' : ∀ c, (b :: pre'').getLast? = some c → c ≠ p1 := by
        intro c hc
        exact hlast c (by rw [List.getLast?_cons_cons]; exact hc)
      rw [List.cons_append, List.cons_append,
        r2_cons₂_ne p1 p2 r a b _ hnp2]
      rw [show b :: (pre'' ++ tail) = (b :: pre'') ++ tail from rfl]
      rw [ih hpair' hlast']
      rfl

theorem intChars_no_comma (k : Int) : ∀ c ∈ intChars k, c ≠ ',' := by
  intro c hc
  rw [intChars] at hc
  by_cases hm : k < 0
  · rw [if_pos hm] at hc
    rcases List.mem_cons.mp hc with h | h
    · subst h; decide
    · obtain ⟨kk, hkk⟩ := (natChars_shape k.natAbs).2 c h
      subst hkk
      exact (digit_facts kk).2.2.2.2.2.2.1
  · rw [if_neg hm] at hc
    obtain ⟨kk, hkk⟩ := (natChars_shape k.natAbs).2 c hc
    subst hkk
    exact (digit_facts kk).2.2.2.2.2.2.1

mutual
/-- The first `replace` pass (`,\x7d → \x7d`) removes exactly the object
trailing commas of the serialization. -/
theorem cf1_v : ∀ (v : Json) (tail : List Char), wfJson v = true →
    replace2 ',' '\x7d' '\x7d' (dumpsF true true v ++ tail) =
      dumpsF true false v ++ replace2 ',' '\x7d' '\x7d' tail
  | Json.null, tail => fun _ =>
    r2_append_no_p1 ',' '\x7d' '\x7d' ("null".data) tail (by decide)
  | Json.bool true, tail => fun _ =>
    r2_append_no_p1 ',' '\x7d' '\x7d' ("true".data) tail (by decide)
  | Json.bool false, tail => fun _ =>
    r2_append_no_p1 ',' '\x7d' '\x7d' ("false".data) tail (by decide)
  | Json.num k, tail => fun _ =>
    r2_append_no_p1 ',' '\x7d' '\x7d' (intChars k) tail (intChars_no_comma k)
  | Json.fnum q, tail => fun hwf => absurd hwf (by simp [wfJson])
  | Json.str s, tail => fun hwf => by
    have hs := safeStr_parts s (by simpa [wfJson] using hwf)
    exact r2_append_no_pair ',' '\x7d' '\x7d' ('"' :: (escapeStr s ++ ['"'])) tail
      (str_seg_pair_free '\x7d' (by decide) (by decide) s hs.2.1)
      (fun c hc => by rw [str_seg_last] at hc; cases hc; decide)
  | Json.arr JsonList.nil, tail => fun _ =>
    r2_append_no_p1 ',' '\x7d' '\x7d' ("[]".data) tail (by decide)
  | Json.obj JsonMembers.nil, tail => fun _ =>
    r2_append_no_p1 ',' '\x7d' '\x7d' ("\x7b\x7d".data) tail (by decide)
  | Json.arr (JsonList.cons x tl), tail => by
    intro hwf
    obtain ⟨hwx, hwtl⟩ := wfList_cons_parts x tl hwf
    show replace2 ',' '\x7d' '\x7d'
      (('[' :: (dumpsF true true x ++ dumpsRestF true true tl ++
        (if true then [','] else []) ++ [']'])) ++ tail) =
      ('[' :: (dumpsF true false x ++ dumpsRestF true false tl ++
        (if true then [','] else []) ++ [']'])) ++
        replace2 ',' '\x7d' '\x7d' tail
    rw [show ('[' :: (dumpsF true true x ++ dumpsRestF true true tl ++
        (if true then [','] else []) ++ [']'])) ++ tail =
      '[' :: (dumpsF true true x ++ (dumpsRestF true true tl ++
        (',' :: (']' :: tail)))) by simp]
    rw [r2_cons_ne _ _ _ _ _ (by decide : '[' ≠ ',')]
    rw [cf1_v x _ hwx]
    rw [cf1_e tl _ hwtl]
    rw [r2_cons₂_ne _ _ _ _ _ _ (by decide : ¬(',' = ',' ∧ ']' = '\x7d'))]
    rw [r2_cons_ne _ _ _ _ _ (by decide : ']' ≠ ',')]
    simp
  | Json.obj (JsonMembers.cons k v tl), tail => by
    intro hwf
    obtain ⟨hsk, hwv, hwtl⟩ := wfMembers_cons_parts k v tl hwf
    have hs := safeStr_parts k hsk
    show replace2 ',' '\x7d' '\x7d'
      (('\x7b' :: ('"' :: (escapeStr k ++ ['"']) ++ ':' :: dumpsF true true v ++
        dumpsMemF true true tl ++ (if true then [','] else []) ++
        ['\x7d'])) ++ tail) =
      ('\x7b' :: ('"' :: (escapeStr k ++ ['"']) ++ ':' :: dumpsF true false v ++
        dumpsMemF true false tl ++ (if false then [','] else []) ++
        ['\x7d'])) ++ replace2 ',' '\x7d' '\x7d' tail
    rw [show ('\x7b' :: ('"' :: (escapeStr k ++ ['"']) ++ ':' :: dumpsF true true v ++
        dumpsMemF true true tl ++ (if true then [','] else []) ++
        ['\x7d'])) ++ tail =
      '\x7b' :: (('"' :: (escapeStr k ++ ['"'])) ++ (':' :: (dumpsF true true v ++
        (dumpsMemF true true tl ++ (',' :: ('\x7d' :: tail)))))) by simp]
    rw [r2_cons_ne _ _ _ _ _ (by decide : '\x7b' ≠ ',')]
    rw [r2_append_no_pair ',' '\x7d' '\x7d' ('"' :: (escapeStr k ++ ['"'])) _
      (str_seg_pair_free '\x7d' (by decide) (by decide) k hs.2.1)
      (fun c hc => by rw [str_seg_last] at hc; cases hc; decide)]
    rw [r2_cons_ne _ _ _ _ _ (by decide : ':' ≠ ',')]
    rw [cf1_v v _ hwv]
    rw [cf1_m tl _ hwtl]
    rw [r2_cons₂_pair]
    simp

theorem cf1_e : ∀ (xs : JsonList) (tail : List Char), wfList xs = true →
    replace2 ',' '\x7d' '\x7d' (dumpsRestF true true xs ++ tail) =
      dumpsRestF true false xs ++ replace2 ',' '\x7d' '\x7d' tail
  | JsonList.nil, tail => fun _ => by simp [dumpsRestF]
  | JsonList.cons y tl', tail => by
    intro hwf
    obtain ⟨hwy, hwtl'⟩ := wfList_cons_parts y tl' hwf
    obtain ⟨c, cs', hshape, _, _, _, hcob, _⟩ := dumpsF_head true true y hwy
    show replace2 ',' '\x7d' '\x7d'
      ((',' :: (dumpsF true true y ++ dumpsRestF true true tl')) ++ tail) =
      (',' :: (dumpsF true false y ++ dumpsRestF true false tl')) ++
        replace2 ',' '\x7d' '\x7d' tail
    rw [show (',' :: (dumpsF true true y ++ dumpsRestF true true tl')) ++ tail =
      ',' :: (c :: (cs' ++ (dumpsRestF true true tl' ++ tail))) by
        rw [hshape]; simp]
    rw [r2_cons₂_ne _ _ _ _ _ _ (by simp [hcob])]
    rw [show c :: (cs' ++ (dumpsRestF true true tl' ++ tail)) =
      dumpsF true true y ++ (dumpsRestF true true tl' ++ tail) by
        rw [hshape]; simp]
    rw [cf1_v y _ hwy]
    rw [cf1_e tl' _ hwtl']
    simp

theorem cf1_m : ∀ (kvs : JsonMembers) (tail : List Char), wfMembers kvs = true →
    replace2 ',' '\x7d' '\x7d' (dumpsMemF true true kvs ++ tail) =
      dumpsMemF true false kvs ++ replace2 ',' '\x7d' '\x7d' tail
  | JsonMembers.nil, tail => fun _ => by simp [dumpsMemF]
  | JsonMembers.cons k v tl, tail => by
    intro hwf
    obtain ⟨hsk, hwv, hwtl⟩ := wfMembers_cons_parts k v tl hwf
    have hs := safeStr_parts k hsk
    show replace2 ',' '\x7d' '\x7d'
      ((',' :: ('"' :: (escapeStr k ++ ['"']) ++ ':' :: dumpsF true true v ++
        dumpsMemF true true tl)) ++ tail) =
      (',' :: ('"' :: (escapeStr k ++ ['"']) ++ ':' :: dumpsF true false v ++
        dumpsMemF true false tl)) ++ replace2 ',' '\x7d' '\x7d' tail
    rw [show (',' :: ('"' :: (escapeStr k ++ ['"']) ++ ':' :: dumpsF true true v ++
        dumpsMemF true true tl)) ++ tail =
      ',' :: ('"' :: ((escapeStr k ++ ['"']) ++ (':' :: (dumpsF true true v ++
        (dumpsMemF true true tl ++ tail))))) by simp]
    rw [r2_cons₂_ne _ _ _ _ _ _ (by decide : ¬(',' = ',' ∧ '"' = '\x7d'))]
    rw [show '"' :: ((escapeStr k ++ ['"']) ++ (':' :: (dumpsF true true v ++
        (dumpsMemF true true tl ++ tail)))) =
      ('"' :: (escapeStr k ++ ['"'])) ++ (':' :: (dumpsF true true v ++
        (dumpsMemF true true tl ++ tail))) by simp]
    rw [r2_append_no_pair ',' '\x7d' '\x7d' ('"' :: (escapeStr k ++ ['"'])) _
      (str_seg_pair_free '\x7d' (by decide) (by decide) k hs.2.1)
      (fun c hc => by rw [str_seg_last] at hc; cases hc; decide)]
    rw [r2_cons_ne _ _ _ _ _ (by decide : ':' ≠ ',')]
    rw [cf1_v v _ hwv]
    rw [cf1_m tl _ hwtl]
    simp
end

mutual
/-- The second `replace` pass (`,] → ]`) removes exactly the array
trailing commas. -/
theorem cf2_v : ∀ (v : Json) (tail : List Char), wfJson v = true →
    replace2 ',' ']' ']' (dumpsF true false v ++ tail) =
      dumpsF false false v ++ replace2 ',' ']' ']' tail
  | Json.null, tail => fun _ =>
    r2_append_no_p1 ',' ']' ']' ("null".data) tail (by decide)
  | Json.bool true, tail => fun _ =>
    r2_append_no_p1 ',' ']' ']' ("true".data) tail (by decide)
  | Json.bool false, tail => fun _ =>
    r2_append_no_p1 ',' ']' ']' ("false".data) tail (by decide)
  | Json.num k, tail => fun _ =>
    r2_append_no_p1 ',' ']' ']' (intChars k) tail (intChars_no_comma k)
  | Json.fnum q, tail => fun hwf => absurd hwf (by simp [wfJson])
  | Json.str s, tail => fun hwf => by
    have hs := safeStr_parts s (by simpa [wfJson] using hwf)
    exact r2_append_no_pair ',' ']' ']' ('"' :: (escapeStr s ++ ['"'])) tail
      (str_seg_pair_free ']' (by decide) (by decide) s hs.2.2)
      (fun c hc => by rw [str_seg_last] at hc; cases hc; decide)
  | Json.arr JsonList.nil, tail => fun _ =>
    r2_append_no_p1 ',' ']' ']' ("[]".data) tail (by decide)
  | Json.obj JsonMembers.nil, tail => fun _ =>
    r2_append_no_p1 ',' ']' ']' ("\x7b\x7d".data) tail (by decide)
  | Json.arr (JsonList.cons x tl), tail => by
    intro hwf
    obtain ⟨hwx, hwtl⟩ := wfList_cons_parts x tl hwf
    show replace2 ',' ']' ']'
      (('[' :: (dumpsF true false x ++ dumpsRestF true false tl ++
        (if true then [','] else []) ++ [']'])) ++ tail) =
      ('[' :: (dumpsF false false x ++ dumpsRestF false false tl ++
        (if false then [','] else []) ++ [']'])) ++
        replace2 ',' ']' ']' tail
    rw [show ('[' :: (dumpsF true false x ++ dumpsRestF true false tl ++
        (if true then [','] else []) ++ [']'])) ++ tail =
      '[' :: (dumpsF true false x ++ (dumpsRestF true false tl ++
        (',' :: (']' :: tail)))) by simp]
    rw [r2_cons_ne _ _ _ _ _ (by decide : '[' ≠ ',')]
    rw [cf2_v x _ hwx]
    rw [cf2_e tl _ hwtl]
    rw [r2_cons₂_pair]
    simp
  | Json.obj (JsonMembers.cons k v tl), tail => by
    intro hwf
    obtain ⟨hsk, hwv, hwtl⟩ := wfMembers_cons_parts k v tl hwf
    have hs := safeStr_parts k hsk
    show replace2 ',' ']' ']'
      (('\x7b' :: ('"' :: (escapeStr k ++ ['"']) ++ ':' :: dumpsF true false v ++
        dumpsMemF true false tl ++ (if false then [','] else []) ++
        ['\x7d'])) ++ tail) =
      ('\x7b' :: ('"' :: (escapeStr k ++ ['"']) ++ ':' :: dumpsF false false v ++
        dumpsMemF false false tl ++ (if false then [','] else []) ++
        ['\x7d'])) ++ replace2 ',' ']' ']' tail
    rw [show ('\x7b' :: ('"' :: (escapeStr k ++ ['"']) ++ ':' :: dumpsF true false v ++
        dumpsMemF true false tl ++ (if false then [','] else []) ++
        ['\x7d'])) ++ tail =
      '\x7b' :: (('"' :: (escapeStr k ++ ['"'])) ++ (':' :: (dumpsF true false v ++
        (dumpsMemF true false tl ++ ('\x7d' :: tail))))) by simp]
    rw [r2_cons_ne _ _ _ _ _ (by decide : '\x7b' ≠ ',')]
    rw [r2_append_no_pair ',' ']' ']' ('"' :: (escapeStr k ++ ['"'])) _
      (str_seg_pair_free ']' (by decide) (by decide) k hs.2.2)
      (fun c hc => by rw [str_seg_last] at hc; cases hc; decide)]
    rw [r2_cons_ne _ _ _ _ _ (by decide : ':' ≠ ',')]
    rw [cf2_v v _ hwv]
    rw [cf2_m tl _ hwtl]
    rw [r2_cons_ne _ _ _ _ _ (by decide : '\x7d' ≠ ',')]
    simp

theorem cf2_e : ∀ (xs : JsonList) (tail : List Char), wfList xs = true →
    replace2 ',' ']' ']' (dumpsRestF true false xs ++ tail) =
      dumpsRestF false false xs ++ replace2 ',' ']' ']' tail
  | JsonList.nil, tail => fun _ => by simp [dumpsRestF]
  | JsonList.cons y tl', tail => by
    intro hwf
    obtain ⟨hwy, hwtl'⟩ := wfList_cons_parts y tl' hwf
    obtain ⟨c, cs', hshape, _, _, hcrb, _, _⟩ := dumpsF_head true false y hwy
    show replace2 ',' ']' ']'
      ((',' :: (dumpsF true false y ++ dumpsRestF true false tl')) ++ tail) =
      (',' :: (dumpsF false false y ++ dumpsRestF false false tl')) ++
        replace2 ',' ']' ']' tail
    rw [show (',' :: (dumpsF true false y ++ dumpsRestF true false tl')) ++ tail =
      ',' :: (c :: (cs' ++ (dumpsRestF true false tl' ++ tail))) by
        rw [hshape]; simp]
    rw [r2_cons₂_ne _ _ _ _ _ _ (by simp [hcrb])]
    rw [show c :: (cs' ++ (dumpsRestF true false tl' ++ tail)) =
      dumpsF true false y ++ (dumpsRestF true false tl' ++ tail) by
        rw [hshape]; simp]
    rw [cf2_v y _ hwy]
    rw [cf2_e tl' _ hwtl']
    simp

theorem cf2_m : ∀ (kvs : JsonMembers) (tail : List Char), wfMembers kvs = true →
    replace2 ',' ']' ']' (dumpsMemF true false kvs ++ tail) =
      dumpsMemF false false kvs ++ replace2 ',' ']' ']' tail
  | JsonMembers.nil, tail => fun _ => by simp [dumpsMemF]
  | JsonMembers.cons k v tl, tail => by
    intro hwf
    obtain ⟨hsk, hwv, hwtl⟩ := wfMembers_cons_parts k v tl hwf
    have hs := safeStr_parts k hsk
    show replace2 ',' ']' ']'
      ((',' :: ('"' :: (escapeStr k ++ ['"']) ++ ':' :: dumpsF true false v ++
        dumpsMemF true false tl)) ++ tail) =
      (',' :: ('"' :: (escapeStr k ++ ['"']) ++ ':' :: dumpsF false false v ++
        dumpsMemF false false tl)) ++ replace2 ',' ']' ']' tail
    rw [show (',' :: ('"' :: (escapeStr k ++ ['"']) ++ ':' :: dumpsF true false v ++
        dumpsMemF true false tl)) ++ tail =
      ',' :: ('"' :: ((escapeStr k ++ ['"']) ++ (':' :: (dumpsF true false v ++
        (dumpsMemF true false tl ++ tail))))) by simp]
    rw [r2_cons₂_ne _ _ _ _ _ _ (by decide : ¬(',' = ',' ∧ '"' = ']'))]
    rw [show '"' :: ((escapeStr k ++ ['"']) ++ (':' :: (dumpsF true false v ++
        (dumpsMemF true false tl ++ tail)))) =
      ('"' :: (escapeStr k ++ ['"'])) ++ (':' :: (dumpsF true false v ++
        (dumpsMemF true false tl ++ tail))) by simp]
    rw [r2_append_no_pair ',' ']' ']' ('"' :: (escapeStr k ++ ['"'])) _
      (str_seg_pair_free ']' (by decide) (by decide) k hs.2.2)
      (fun c hc => by rw [str_seg_last] at hc; cases hc; decide)]
    rw [r2_cons_ne _ _ _ _ _ (by decide : ':' ≠ ',')]
    rw [cf2_v v _ hwv]
    rw [cf2_m tl _ hwtl]
    simp
end

/-- The two `replace` passes turn the trailing-comma serialization into
the clean one. -/
theorem commaFix_dumpsT (v : Json) (hwf : wfJson v = true) :
    commaFix (dumpsT v) = dumps v := by
  have h1 := cf1_v v [] hwf
  have h2 := cf2_v v [] hwf
  rw [List.append_nil] at h1 h2
  rw [show replace2 ',' '\x7d' '\x7d' ([] : List Char) = [] from rfl,
    List.append_nil] at h1
  rw [show replace2 ',' ']' ']' ([] : List Char) = [] from rfl,
    List.append_nil] at h2
  show replace2 ',' ']' ']' (replace2 ',' '\x7d' '\x7d' (dumpsF true true v)) =
    dumpsF false false v
  rw [h1, h2]

theorem containsSub_head_mem (p : Char) (ps hay : List Char)
    (h : containsSub (p :: ps) hay = true) : p ∈ hay := by
  induction hay with
  | nil => simp [containsSub, List.isPrefixOf] at h
  | cons c t ih =>
    have h' : (List.isPrefixOf (p :: ps) (c :: t) || containsSub (p :: ps) t)
        = true := h
    rw [Bool.or_eq_true] at h'
    rcases h' with h' | h'
    · obtain ⟨rest2, hr⟩ := List.isPrefixOf_iff_prefix.mp h'
      rw [List.cons_append] at hr
      injection hr with hpc _
      subst hpc
      exact List.mem_cons_self _ _
    · exact List.mem_cons_of_mem _ (ih h')

theorem safeChar_parts (c : Char) (h : safeChar c = true) :
    32 ≤ c.toNat ∧ c.toNat ≤ 126 ∧ c ≠ Char.ofNat 96 := by
  simp only [safeChar, Bool.and_eq_true, decide_eq_true_eq] at h
  refine ⟨h.1.1, h.1.2, ?_⟩
  intro hx
  exact h.2 (by rw [hx])

theorem escapeStr_nb (s : String) (hs : ∀ c ∈ s.data, safeChar c = true) :
    ∀ c ∈ escapeStr s, c ≠ Char.ofNat 96 := by
  intro c hc
  rw [escapeStr, List.mem_flatMap] at hc
  obtain ⟨a, ha, hca⟩ := hc
  by_cases h1 : a = '"'
  · subst h1
    rw [show escChar '"' = ['\\', '"'] from rfl] at hca
    rcases List.mem_cons.mp hca with rfl | hca2
    · decide
    · rcases List.mem_cons.mp hca2 with rfl | hca3
      · decide
      · cases hca3
  · by_cases h2 : a = '\\'
    · subst h2
      rw [show escChar '\\' = ['\\', '\\'] from rfl] at hca
      rcases List.mem_cons.mp hca with rfl | hca2
      · decide
      · rcases List.mem_cons.mp hca2 with rfl | hca3
        · decide
        · cases hca3
    · rw [show escChar a = [a] by simp [escChar, h1, h2]] at hca
      rcases List.mem_cons.mp hca with hce | hca2
      · rw [hce]; exact (safeChar_parts a (hs a ha)).2.2
      · cases hca2

mutual
/-- The serialization of a wellformed value contains no backtick, so
fence stripping leaves it unchanged. -/
theorem dumps_nb_v : ∀ (tA tO : Bool) (v : Json), wfJson v = true →
    ∀ c ∈ dumpsF tA tO v, c ≠ Char.ofNat 96
  | _, _, Json.null, _ => fun c hc =>
    (by decide : ∀ x ∈ ("null".data), x ≠ Char.ofNat 96) c hc
  | _, _, Json.bool true, _ => fun c hc =>
    (by decide : ∀ x ∈ ("true".data), x ≠ Char.ofNat 96) c hc
  | _, _, Json.bool false, _ => fun c hc =>
    (by decide : ∀ x ∈ ("false".data), x ≠ Char.ofNat 96) c hc
  | _, _, Json.num k, _ => by
    intro c hc
    show c ≠ Char.ofNat 96
    have hc' : c ∈ intChars k := hc
    rw [intChars] at hc'
    by_cases hm : k < 0
    · rw [if_pos hm] at hc'
      rcases List.mem_cons.mp hc' with h | h
      · subst h; decide
      · obtain ⟨kk, hkk⟩ := (natChars_shape k.natAbs).2 c h
        subst hkk
        exact (digit_facts kk).2.2.2.2.2.2.2.2.2.2.2.2.2.1
    · rw [if_neg hm] at hc'
      obtain ⟨kk, hkk⟩ := (natChars_shape k.natAbs).2 c hc'
      subst hkk
      exact (digit_facts kk).2.2.2.2.2.2.2.2.2.2.2.2.2.1
  | _, _, Json.fnum q, hwf => absurd hwf (by simp [wfJson])
  | _, _, Json.str s, hwf => by
    intro c hc
    have hs := safeStr_parts s (by simpa [wfJson] using hwf)
    have hc' : c ∈ '"' :: (escapeStr s ++ ['"']) := hc
    rcases List.mem_cons.mp hc' with h | h
    · subst h; decide
    · rcases List.mem_append.mp h with h | h
      · exact escapeStr_nb s hs.1 c h
      · rcases List.mem_singleton.mp h with rfl; decide
  | _, _, Json.arr JsonList.nil, _ => fun c hc =>
    (by decide : ∀ x ∈ ("[]".data), x ≠ Char.ofNat 96) c hc
  | _, _, Json.obj JsonMembers.nil, _ => fun c hc =>
    (by decide : ∀ x ∈ ("\x7b\x7d".data), x ≠ Char.ofNat 96) c hc
  | tA, tO, Json.arr (JsonList.cons x tl), hwf => by
    intro c hc
    obtain ⟨hwx, hwtl⟩ := wfList_cons_parts x tl hwf
    have hc' : c ∈ '[' :: (dumpsF tA tO x ++ dumpsRestF tA tO tl ++
      (if tA then [','] else []) ++ [']']) := hc
    rcases List.mem_cons.mp hc' with h | h
    · subst h; decide
    · rcases List.mem_append.mp h with h | h
      · rcases List.mem_append.mp h with h | h
        · rcases List.mem_append.mp h with h | h
          · exact dumps_nb_v tA tO x hwx c h
          · exact dumps_nb_e tA tO tl hwtl c h
        · cases tA with
          | true => rcases List.mem_singleton.mp h with rfl; decide
          | false => cases h
      · rcases List.mem_singleton.mp h with rfl; decide
  | tA, tO, Json.obj (JsonMembers.cons k v tl), hwf => by
    intro c hc
    obtain ⟨hsk, hwv, hwtl⟩ := wfMembers_cons_parts k v tl hwf
    have hsp := safeStr_parts k hsk
    have hc' : c ∈ '\x7b' :: ('"' :: (escapeStr k ++ ['"']) ++
      ':' :: dumpsF tA tO v ++ dumpsMemF tA tO tl ++
      (if tO then [','] else []) ++ ['\x7d']) := hc
    rcases List.mem_cons.mp hc' with h | h
    · subst h; decide
    · rcases List.mem_append.mp h with h | h
      · rcases List.mem_append.mp h with h | h
        · rcases List.mem_append.mp h with h | h
          · rcases List.mem_append.mp h with h | h
            · rcases List.mem_cons.mp h with h | h
              · subst h; decide
              · rcases List.mem_append.mp h with h | h
                · exact escapeStr_nb k hsp.1 c h
                · rcases List.mem_singleton.mp h with rfl; decide
            · rcases List.mem_cons.mp h with h | h
              · subst h; decide
              · exact dumps_nb_v tA tO v hwv c h
          · exact dumps_nb_m tA tO tl hwtl c h
        · cases tO with
          | true => rcases List.mem_singleton.mp h with rfl; decide
          | false => cases h
      · rcases List.mem_singleton.mp h with rfl; decide

theorem dumps_nb_e : ∀ (tA tO : Bool) (xs : JsonList), wfList xs = true →
    ∀ c ∈ dumpsRestF tA tO xs, c ≠ Char.ofNat 96
  | _, _, JsonList.nil, _ => by intro c hc; cases hc
  | tA, tO, JsonList.cons y tl', hwf => by
    intro c hc
    obtain ⟨hwy, hwtl'⟩ := wfList_cons_parts y tl' hwf
    have hc' : c ∈ ',' :: (dumpsF tA tO y ++ dumpsRestF tA tO tl') := hc
    rcases List.mem_cons.mp hc' with h | h
    · subst h; decide
    · rcases List.mem_append.mp h with h | h
      · exact dumps_nb_v tA tO y hwy c h
      · exact dumps_nb_e tA tO tl' hwtl' c h

theorem dumps_nb_m : ∀ (tA tO : Bool) (kvs : JsonMembers), wfMembers kvs = true →
    ∀ c ∈ dumpsMemF tA tO kvs, c ≠ Char.ofNat 96
  | _, _, JsonMembers.nil, _ => by intro c hc; cases hc
  | tA, tO, JsonMembers.cons k v tl, hwf => by
    intro c hc
    obtain ⟨hsk, hwv, hwtl⟩ := wfMembers_cons_parts k v tl hwf
    have hsp := safeStr_parts k hsk
    have hc' : c ∈ ',' :: ('"' :: (escapeStr k ++ ['"']) ++
      ':' :: dumpsF tA tO v ++ dumpsMemF tA tO tl) := hc
    rcases List.mem_cons.mp hc' with h | h
    · subst h; decide
    · rcases List.mem_append.mp h with h | h
      · rcases List.mem_append.mp h with h | h
        · rcases List.mem_cons.mp h with h | h
          · subst h; decide
          · rcases List.mem_append.mp h with h | h
            · exact escapeStr_nb k hsp.1 c h
            · rcases List.mem_singleton.mp h with rfl; decide
        · rcases List.mem_cons.mp h with h | h
          · subst h; decide
          · exact dumps_nb_v tA tO v hwv c h
      · exact dumps_nb_m tA tO tl hwtl c h
end

/-- Fence stripping is the identity on backtick-free text. -/
theorem fenceStrip_id_of_nb (cs : List Char)
    (h : ∀ c ∈ cs, c ≠ Char.ofNat 96) : fenceStrip cs = cs := by
  have h1 : containsSub ("```json".data) cs = false := by
    by_contra hcon
    rw [Bool.not_eq_false] at hcon
    have hcon' : containsSub (Char.ofNat 96 :: "``json".data) cs = true := hcon
    exact h _ (containsSub_head_mem _ _ cs hcon') rfl
  have h2 : containsSub ("```".data) cs = false := by
    by_contra hcon
    rw [Bool.not_eq_false] at hcon
    have hcon' : containsSub (Char.ofNat 96 :: "``".data) cs = true := hcon
    exact h _ (containsSub_head_mem _ _ cs hcon') rfl
  rw [fenceStrip, if_neg (by simp [h1]), if_neg (by simp [h2])]

theorem isPrefixOf_triple_false (a : Char) (X : List Char)
    (ha : a ≠ Char.ofNat 96) :
    List.isPrefixOf ("```".data) (a :: X) = false := by
  have h1 : ((Char.ofNat 96 == a) && List.isPrefixOf ("``".data) X) = false := by
    rw [show (Char.ofNat 96 == a) = false by
      rw [beq_eq_false_iff_ne]; exact fun he => ha he.symm]
    rw [Bool.false_and]
  exact h1

theorem splitFirst_append_nb (pre : List Char)
    (h : ∀ c ∈ pre, c ≠ Char.ofNat 96) :
    splitFirst ("```".data) (pre ++ "```".data) = some (pre, []) := by
  induction pre with
  | nil => rfl
  | cons a pre' ih =>
    have hpre := isPrefixOf_triple_false a (pre' ++ "```".data) (h a (by simp))
    rw [List.cons_append]
    rw [show splitFirst ("```".data) (a :: (pre' ++ "```".data)) =
      (if ("```".data).isPrefixOf (a :: (pre' ++ "```".data)) then
        some ([], (a :: (pre' ++ "```".data)).drop ("```".data).length)
      else
        match splitFirst ("```".data) (pre' ++ "```".data) with
        | some (x, b) => some (a :: x, b)
        | none => none) from rfl]
    rw [if_neg (by simp [hpre])]
    rw [ih (fun c hc => h c (by simp [hc]))]

theorem dropWhile_head_not (p : Char → Bool) (l : List Char) (x : Char)
    (hx : l.head? = some x) (hpx : p x = false) :
    l.dropWhile p = l := by
  cases l with
  | nil => cases hx
  | cons a t =>
    rw [List.head?_cons, Option.some.injEq] at hx
    subst hx
    simp [List.dropWhile_cons, hpx]

theorem pyStrip_wrap (cs : List Char) (c0 cl : Char)
    (h0 : cs.head? = some c0) (hl : cs.getLast? = some cl)
    (hw0 : isWsChar c0 = false) (hwl : isWsChar cl = false) :
    pyStrip ('\n' :: (cs ++ ['\n'])) = cs := by
  rw [pyStrip]
  rw [show List.dropWhile isWsChar ('\n' :: (cs ++ ['\n'])) =
    List.dropWhile isWsChar (cs ++ ['\n']) by
      simp [List.dropWhile_cons, show isWsChar '\n' = true from by decide]]
  rw [show List.dropWhile isWsChar (cs ++ ['\n']) = cs ++ ['\n'] by
    apply dropWhile_head_not _ _ c0 _ hw0
    cases cs with
    | nil => cases h0
    | cons a t => simpa using h0]
  rw [show (cs ++ ['\n']).reverse = '\n' :: cs.reverse by
    rw [List.reverse_append]; rfl]
  rw [show List.dropWhile isWsChar ('\n' :: cs.reverse) =
    List.dropWhile isWsChar cs.reverse by
      simp [List.dropWhile_cons, show isWsChar '\n' = true from by decide]]
  rw [dropWhile_head_not _ _ cl (by rw [List.head?_reverse]; exact hl) hwl]
  rw [List.reverse_reverse]

/-- Fence stripping recovers the text from its markdown wrapping when
the text is backtick-free and not whitespace-padded. -/
theorem fenceStrip_fenceWrap (cs : List Char)
    (hnb : ∀ c ∈ cs, c ≠ Char.ofNat 96) (c0 cl : Char)
    (h0 : cs.head? = some c0) (hl : cs.getLast? = some cl)
    (hw0 : isWsChar c0 = false) (hwl : isWsChar cl = false) :
    fenceStrip (fenceWrap cs) = cs := by
  have hc1 : containsSub ("```json".data) (fenceWrap cs) = true := by
    have hp : List.isPrefixOf ("```json".data) (fenceWrap cs) = true := rfl
    cases hfw : fenceWrap cs with
    | nil =>
      rw [hfw] at hp
      simp [List.isPrefixOf] at hp
    | cons a t =>
      rw [hfw] at hp
      rw [show containsSub ("```json".data) (a :: t) =
        (List.isPrefixOf ("```json".data) (a :: t) ||
          containsSub ("```json".data) t) from rfl, hp, Bool.true_or]
  rw [fenceStrip, if_pos hc1]
  rw [show afterFirst ("```json".data) (fenceWrap cs) =
    '\n' :: (cs ++ "\n```".data) from rfl]
  have hsp := splitFirst_append_nb ('\n' :: (cs ++ ['\n']))
    (by
      intro c hc
      rcases List.mem_cons.mp hc with hce | hc2
      · rw [hce]; decide
      · rcases List.mem_append.mp hc2 with hc3 | hc3
        · exact hnb c hc3
        · rcases List.mem_singleton.mp hc3 with rfl; decide)
  rw [show '\n' :: (cs ++ "\n```".data) =
    ('\n' :: (cs ++ ['\n'])) ++ "```".data by simp]
  rw [beforeFirst, hsp]
  exact pyStrip_wrap cs c0 cl h0 hl hw0 hwl

theorem dumpsT_eq_dumps (v : Json) (h : hasTC v = false) :
    dumpsT v = dumps v := by
  cases v with
  | null => rfl
  | bool b => cases b <;> rfl
  | num k => rfl
  | fnum q => rfl
  | str s => rfl
  | arr xs =>
    cases xs with
    | nil => rfl
    | cons x tl => simp [hasTC] at h
  | obj kvs =>
    cases kvs with
    | nil => rfl
    | cons k v tl => simp [hasTC] at h

theorem parseResponseObj_ok_of_loads (cs : List Char) (v : Json)
    (h : json_loads (fenceStrip cs) = some v) :
    parseResponseObj cs = Except.ok v := by
  simp [parseResponseObj, h]

theorem parseResponseObj_ok_of_commaFix (cs : List Char) (v : Json)
    (h1 : json_loads (fenceStrip cs) = none)
    (h2 : json_loads (commaFix (fenceStrip cs)) = some v) :
    parseResponseObj cs = Except.ok v := by
  simp [parseResponseObj, h1, h2]

theorem parseResponseObj_error_of_all_fail (cs : List Char)
    (h1 : json_loads (fenceStrip cs) = none)
    (h2 : json_loads (commaFix (fenceStrip cs)) = none)
    (h3 : ∀ sub, braceExtract '\x7b' '\x7d' (commaFix (fenceStrip cs)) =
      some sub → json_loads sub = none) :
    parseResponseObj cs = Except.error () := by
  cases hbe : braceExtract '\x7b' '\x7d' (commaFix (fenceStrip cs)) with
  | none => simp [parseResponseObj, h1, h2, hbe]
  | some sub => simp [parseResponseObj, h1, h2, hbe, h3 sub hbe]

/-- C8: the recovery parser of `extract_with_groq` yields the same
value on the clean serialization of a wellformed value, on that text
wrapped in markdown ```json fences, and on that text with trailing
commas; and when every recovery stage fails it returns a parse error. -/
theorem c8_recovery_idempotence (v : Json) (hwf : wfJson v = true)
    (cs : List Char)
    (h1 : json_loads (fenceStrip cs) = none)
    (h2 : json_loads (commaFix (fenceStrip cs)) = none)
    (h3 : ∀ sub, braceExtract '\x7b' '\x7d' (commaFix (fenceStrip cs)) =
      some sub → json_loads sub = none) :
    parseResponseObj (dumps v) = Except.ok v ∧
    parseResponseObj (fenceWrap (dumps v)) = Except.ok v ∧
    parseResponseObj (dumpsT v) = Except.ok v ∧
    parseResponseObj cs = Except.error () := by
  have hnb : ∀ c ∈ dumps v, c ≠ Char.ofNat 96 := dumps_nb_v false false v hwf
  have hfs : fenceStrip (dumps v) = dumps v := fenceStrip_id_of_nb _ hnb
  have hld := json_loads_dumps v hwf
  refine ⟨?_, ?_, ?_, ?_⟩
  · exact parseResponseObj_ok_of_loads _ v (by rw [hfs]; exact hld)
  · obtain ⟨c0, cs0, hshape, _, hw0, _, _, _⟩ := dumpsF_head false false v hwf
    obtain ⟨cl, hlast, _, hwl⟩ := dumpsF_last false false v hwf
    have hfw : fenceStrip (fenceWrap (dumps v)) = dumps v :=
      fenceStrip_fenceWrap (dumps v) hnb c0 cl
        (by rw [show dumps v = dumpsF false false v from rfl, hshape]; rfl)
        hlast hw0 hwl
    exact parseResponseObj_ok_of_loads _ v (by rw [hfw]; exact hld)
  · by_cases htc : hasTC v = true
    · have hnbT : ∀ c ∈ dumpsT v, c ≠ Char.ofNat 96 := dumps_nb_v true true v hwf
      have hfsT : fenceStrip (dumpsT v) = dumpsT v := fenceStrip_id_of_nb _ hnbT
      apply parseResponseObj_ok_of_commaFix
      · rw [hfsT]; exact json_loads_dumpsT_none v hwf htc
      · rw [hfsT, commaFix_dumpsT v hwf]; exact hld
    · rw [dumpsT_eq_dumps v (by revert htc; cases hasTC v <;> simp)]
      exact parseResponseObj_ok_of_loads _ v (by rw [hfs]; exact hld)
  · exact parseResponseObj_error_of_all_fail cs h1 h2 h3

theorem c8_recovery_idempotence_witness :
    (parseResponseObj (dumps (Json.obj (JsonMembers.cons "a" (Json.num 1)
        JsonMembers.nil))) =
      Except.ok (Json.obj (JsonMembers.cons "a" (Json.num 1)
        JsonMembers.nil)) ∧
    parseResponseObj (fenceWrap (dumps (Json.obj (JsonMembers.cons "a"
        (Json.num 1) JsonMembers.nil)))) =
      Except.ok (Json.obj (JsonMembers.cons "a" (Json.num 1)
        JsonMembers.nil)) ∧
    parseResponseObj (dumpsT (Json.obj (JsonMembers.cons "a" (Json.num 1)
        JsonMembers.nil))) =
      Except.ok (Json.obj (JsonMembers.cons "a" (Json.num 1)
        JsonMembers.nil)) ∧
    parseResponseObj (['x']) = Except.error ()) :=
  c8_recovery_idempotence
    (Json.obj (JsonMembers.cons "a" (Json.num 1) JsonMembers.nil))
    (by rfl) (['x']) (by rfl) (by rfl)
    (fun sub h => by cases h)



theorem detect_income_conf (m : ℚ) (txns : List ITxn) (t : ITxn) (c : ℚ)
    (h : (t, c) ∈ detect_income m txns) :
    c = score m (sortByDateI txns) t := by
  simp only [detect_income] at h
  rw [List.mem_map] at h
  obtain ⟨cc, hcc, heq⟩ := h
  rw [List.mem_filter] at hcc
  have hperm := (List.perm_insertionSort
    (fun (a b : ITxn × ℚ × ℚ) => b.2.2 ≤ a.2.2) _).mem_iff.mp hcc.1
  rw [List.mem_map] at hperm
  obtain ⟨t', ht', hteq⟩ := hperm
  subst hteq
  rw [Prod.ext_iff] at heq
  obtain ⟨ht, hc⟩ := heq
  cases ht
  exact hc.symm

theorem score_mono (m : ℚ) (s1 s2 : List ITxn) (t1 t2 : ITxn)
    (hdesc : t1.description = t2.description)
    (hb1 : t1.balance_after = none) (hb2 : t2.balance_after = none)
    (hamt : |t1.amount| ≤ |t2.amount|) :
    score m s1 t1 ≤ score m s2 t2 := by
  have ha1 : (0 : ℚ) ≤ |t1.amount| := abs_nonneg _
  have ha2 : (0 : ℚ) ≤ |t2.amount| := abs_nonneg _
  simp only [score, hb1, hb2, hdesc]
  cases hI : hasKw INCOME_KEYWORDS (pyUpper t2.description) <;>
    cases hN : hasKw NON_INCOME_KEYWORDS (pyUpper t2.description) <;>
    simp only [Bool.true_eq_false, Bool.false_eq_true, false_and, and_false,
      and_true, true_and, if_false, if_true, not_false_eq_true,
      reduceIte] <;>
    split_ifs <;>
    first
      | linarith
      | norm_num [min_def, max_def]
      | (norm_num [min_def, max_def]; linarith)

theorem sort_ce : sortByDateI [wIPrev, wIS, wIL] = [wIPrev, wIS, wIL] := by
  simp [sortByDateI, List.insertionSort, List.orderedInsert, wIPrev, wIS, wIL]

theorem prev_wIS : prevTxn [wIPrev, wIS, wIL] wIS = some wIPrev := rfl

theorem prev_wIL : prevTxn [wIPrev, wIS, wIL] wIL = some wIPrev := rfl

theorem score_wIS : score 5000 [wIPrev, wIS, wIL] wIS = 19 / 20 := by
  rw [score]
  rw [show pyUpper wIS.description = pyUpper "" from rfl]
  rw [hKwEmptyInc, hKwEmptyNon]
  rw [show wIS.balance_after = some (12000 : ℚ) from rfl, prev_wIS]
  norm_num [wIPrev, wIS]

theorem score_wIL : score 5000 [wIPrev, wIS, wIL] wIL = 17 / 20 := by
  rw [score]
  rw [show pyUpper wIL.description = pyUpper "" from rfl]
  rw [hKwEmptyInc, hKwEmptyNon]
  rw [show wIL.balance_after = some (12000 : ℚ) from rfl, prev_wIL]
  norm_num [wIPrev, wIL]

theorem detect_income_eval_ce :
    detect_income 5000 [wIPrev, wIS, wIL] =
      [(wIL, (17 : ℚ) / 20), (wIS, (19 : ℚ) / 20)] := by
  have haS : |wIS.amount| = (12000 : ℚ) := by
    rw [show wIS.amount = (12000 : ℚ) from rfl]; norm_num
  have haL : |wIL.amount| = (18000 : ℚ) := by
    rw [show wIL.amount = (18000 : ℚ) from rfl]; norm_num
  have hdS : decide (|wIS.amount| < (5000 : ℚ)) = false :=
    decide_eq_false (by rw [haS]; norm_num)
  have hdL : decide (|wIL.amount| < (5000 : ℚ)) = false :=
    decide_eq_false (by rw [haL]; norm_num)
  have hd3 : decide ((0 : ℚ) < 19 / 20) = true := decide_eq_true (by norm_num)
  have hd4 : decide ((0 : ℚ) < 17 / 20) = true := decide_eq_true (by norm_num)
  rw [detect_income, sort_ce]
  simp only [score_wIS, score_wIL, List.filter, hdS, hdL, hd3, hd4,
    show (wIPrev.transaction_type == "credit") = false from rfl,
    show (wIS.transaction_type == "credit") = true from rfl,
    show (wIL.transaction_type == "credit") = true from rfl,
    Bool.not_false, Bool.and_true, Bool.true_and, Bool.false_and,
    Bool.and_self]
  simp only [List.insertionSort, List.orderedInsert, haS, haL]
  norm_num

/-- C3: in the run of the spec's worked configuration, the larger of two
transactions identical in every field but amount receives income
confidence 0.85 while the smaller receives 0.95: the recorded
`balance_after`, unchanged between the two, matches the smaller amount
(0.95 branch) but not the larger one (0.85 branch). -/
theorem c3_balance_counterexample :
    ((wIL, (17 : ℚ) / 20) ∈ detect_income 5000 [wIPrev, wIS, wIL] ∧
     (wIS, (19 : ℚ) / 20) ∈ detect_income 5000 [wIPrev, wIS, wIL]) ∧
    wIS.date = wIL.date ∧
    wIS.transaction_type = wIL.transaction_type ∧
    wIS.description = wIL.description ∧
    wIS.balance_after = wIL.balance_after ∧
    |wIS.amount| < |wIL.amount| ∧
    (17 : ℚ) / 20 < (19 : ℚ) / 20 := by
  refine ⟨⟨?_, ?_⟩, rfl, rfl, rfl, rfl, ?_, by norm_num⟩
  · rw [detect_income_eval_ce]; simp
  · rw [detect_income_eval_ce]; simp
  · rw [show wIS.amount = (12000 : ℚ) from rfl,
      show wIL.amount = (18000 : ℚ) from rfl]
    norm_num

/-- C3 (amended): among transactions without a recorded balance_after,
identical in every field but amount and placed in the same transaction
list, detect_income never assigns the one with the larger absolute
amount a strictly lower income confidence. -/
theorem c3_income_confidence_mono (m : ℚ) (txns : List ITxn)
    (t1 t2 : ITxn) (c1 c2 : ℚ)
    (hdate : t1.date = t2.date)
    (htt : t1.transaction_type = t2.transaction_type)
    (hdesc : t1.description = t2.description)
    (hb1 : t1.balance_after = none) (hb2 : t2.balance_after = none)
    (hamt : |t1.amount| ≤ |t2.amount|)
    (h1 : (t1, c1) ∈ detect_income m txns)
    (h2 : (t2, c2) ∈ detect_income m txns) :
    c1 ≤ c2 := by
  rw [detect_income_conf m txns t1 c1 h1, detect_income_conf m txns t2 c2 h2]
  exact score_mono m _ _ t1 t2 hdesc hb1 hb2 hamt

theorem c3_income_confidence_mono_witness :
    (wI1, (9 : ℚ) / 10) ∈ detect_income 5000 [wI1, wI2] ∧
    (wI2, (9 : ℚ) / 10) ∈ detect_income 5000 [wI1, wI2] ∧
    |wI1.amount| ≤ |wI2.amount| ∧
    (9 : ℚ) / 10 ≤ (9 : ℚ) / 10 := by
  have hm1 : (wI1, (9 : ℚ) / 10) ∈ detect_income 5000 [wI1, wI2] := by
    rw [detect_income_eval_w]; simp
  have hm2 : (wI2, (9 : ℚ) / 10) ∈ detect_income 5000 [wI1, wI2] := by
    rw [detect_income_eval_w]; simp
  have hamt : |wI1.amount| ≤ |wI2.amount| := by
    rw [show wI1.amount = (12000 : ℚ) from rfl,
      show wI2.amount = (18000 : ℚ) from rfl]
    norm_num
  exact ⟨hm1, hm2, hamt,
    c3_income_confidence_mono 5000 [wI1, wI2] wI1 wI2 ((9 : ℚ) / 10)
      ((9 : ℚ) / 10) rfl rfl rfl rfl rfl hamt hm1 hm2⟩

end SpendWise
